import Mathlib

/-!
# heap.js native layer (`src/heap.cc`): a shallow embedding

The C++ functions of `src/heap.cc` are translated one by one.

* `int` / `int32_t` values are `Int`s kept in `[-2^31, 2^31)` by `toInt32`;
  `intptr_t` values are `Int`s kept in `[-2^63, 2^63)` by `toInt64`;
  `uint32_t` / `uint64_t` values are `Nat`s reduced with `% 2^32` / `% 2^64`.
  A conversion from a signed to an unsigned type is the usual modular
  one (`toUInt32`, `toUInt64`), which sign-extends a negative `int` when the
  target is `uint64_t`.
* Memory is one flat byte-addressed space `Mem`; a 64-bit access reads or
  writes eight consecutive bytes, least significant byte first.
* A `Buffer` is a `View`: a base address and a length, owning nothing.
* `NanThrowError(msg)` is `Except.error msg`.
* The argument-shape checks at the head of every `NAN_METHOD` are reflected in
  the types of the parameters: a caller of the embedding cannot pass the wrong
  number or kind of arguments.
-/

namespace Heap

/-! ## Machine integers -/

/-- Conversion to `int` / `int32_t`: reduction into `[-2^31, 2^31)`. -/
def toInt32 (x : Int) : Int := (x + 2147483648) % 4294967296 - 2147483648

/-- Conversion to `intptr_t` / `int64_t`: reduction into `[-2^63, 2^63)`. -/
def toInt64 (x : Int) : Int :=
  (x + 9223372036854775808) % 18446744073709551616 - 9223372036854775808

/-- Conversion to `uint32_t`. -/
def toUInt32 (x : Int) : Nat := (x % 4294967296).toNat

/-- Conversion to `uint64_t` (a negative `int` is sign-extended). -/
def toUInt64 (x : Int) : Nat := (x % 18446744073709551616).toNat

/-- The value `Int32Value()` gives for a JavaScript number holding the integer `n`. -/
def Int32Value (n : Int) : Int := toInt32 n

/-- Bitwise or of two `int`s, taken on their 32-bit patterns (negative values modulo 2^32). -/
def orInt32 (a b : Int) : Int := toInt32 ((toUInt32 a ||| toUInt32 b : Nat) : Int)

/-- Left shift of an `int` by `n` bits, with the result wrapped into `int`. -/
def shlInt32 (a : Int) (n : Nat) : Int := toInt32 (a * 2 ^ n)

/-! ## Constants (`heap.cc` lines 16-23) -/

def kPointerSize : Int := 8
def kPointerShift : Int := if kPointerSize = 8 then 3 else 2
def kAlign : Int := 2 * 8
def kTagShift : Nat := 1
def kTagMask : Int := shlInt32 1 kTagShift - 1
def kTagPointer : Int := 1
def kTagSmi : Int := 0
def kSmiMask : Int := 2147483647

/-! ## Memory and views -/

/-- Flat memory: a byte (taken modulo 256 when read) at every address. -/
abbrev Mem := Nat → Nat

/-- The address of the `i`-th byte of an object at `a`, in a 64-bit address space. -/
def byteAddr (a i : Nat) : Nat := (a + i) % 18446744073709551616

/-- A 64-bit little-endian load, `*reinterpret_cast<uint64_t*>(a)`. -/
def load64 (mem : Mem) (a : Nat) : Nat :=
  mem (byteAddr a 0) % 256
    + mem (byteAddr a 1) % 256 * 256
    + mem (byteAddr a 2) % 256 * 65536
    + mem (byteAddr a 3) % 256 * 16777216
    + mem (byteAddr a 4) % 256 * 4294967296
    + mem (byteAddr a 5) % 256 * 1099511627776
    + mem (byteAddr a 6) % 256 * 281474976710656
    + mem (byteAddr a 7) % 256 * 72057594037927936

/-- A 64-bit little-endian store of the `uint64_t` value `v` at address `a`. -/
def store64 (mem : Mem) (a v : Nat) : Mem := fun x =>
  if x = byteAddr a 0 then v % 256
  else if x = byteAddr a 1 then v / 256 % 256
  else if x = byteAddr a 2 then v / 65536 % 256
  else if x = byteAddr a 3 then v / 16777216 % 256
  else if x = byteAddr a 4 then v / 4294967296 % 256
  else if x = byteAddr a 5 then v / 1099511627776 % 256
  else if x = byteAddr a 6 then v / 281474976710656 % 256
  else if x = byteAddr a 7 then v / 72057594037927936 % 256
  else mem x

/-- A `Buffer`: base address (`Buffer::Data`) and length, without ownership. -/
structure View where
  address : Nat
  length : Nat
  deriving DecidableEq, Repr

/-- A JavaScript argument or result that is a number or a `Buffer`. -/
inductive Value where
  | number (n : Int)
  | buffer (v : View)
  deriving DecidableEq, Repr

/-- The address `Buffer::Data(v)` as a `uint64_t`. -/
def View.data (v : View) : Nat := v.address % 18446744073709551616

/-- The length given to every buffer made from a decoded pointer. -/
def kUnknownLength : Nat := 0x3fffffff

/-! ## Tagged values (`heap.cc` lines 25-95) -/

/-- `WriteTagged(dst, src, off)`, lines 25-57. -/
def WriteTagged (mem : Mem) (dst : View) (src : Value) (off : Int) : Except String Mem :=
  match src with
  | Value.buffer s =>
    let tagged_src : Nat := s.data
    if tagged_src &&& toUInt64 kTagMask = toUInt64 kTagPointer then
      Except.error "Unaligned src buffer"
    else
      let tagged_src := tagged_src ||| 1
      let off := toUInt32 (Int32Value off)
      Except.ok (store64 mem (dst.data + off) tagged_src)
  | Value.number n =>
    let tagged_src : Nat := toUInt64 (Int32Value n)
    if tagged_src &&& toUInt64 kSmiMask ≠ tagged_src then
      Except.error "Too big number to be tagged"
    else
      let tagged_src := (tagged_src <<< 1) % 18446744073709551616
      let off := toUInt32 (Int32Value off)
      Except.ok (store64 mem (dst.data + off) tagged_src)

/-- `ReadTagged(src, off)`, lines 64-95. The mask of line 78 is computed in `int`
before it meets the `uint64_t` word. -/
def ReadTagged (mem : Mem) (src : View) (off : Int) : Except String Value :=
  let off := toUInt32 (Int32Value off)
  let res : Nat := load64 mem (src.data + off)
  if res &&& toUInt64 kTagMask = toUInt64 kTagSmi then
    if res &&& toUInt64 (orInt32 (shlInt32 kSmiMask 1) kTagMask) ≠ res then
      Except.error "Invalid untagged number"
    else
      Except.ok (Value.number (toInt32 (toUInt32 (res >>> 1))))
  else
    let res := res ^^^ toUInt64 kTagPointer
    Except.ok (Value.buffer ⟨res, kUnknownLength⟩)

/-! ## Mark bitmap (`heap.cc` lines 169-252) -/

/-- Bitwise complement of a `uint64_t`. -/
def notUInt64 (x : Nat) : Nat := 18446744073709551615 - x % 18446744073709551616

/-- Difference of two `uint64_t` values. -/
def subUInt64 (x y : Nat) : Nat :=
  (x % 18446744073709551616 + (18446744073709551616 - y % 18446744073709551616))
    % 18446744073709551616

/-- The local `bitfield_size` of `GetMarkingWord`, line 173 (an `int`). -/
def bitfieldSize (page_size bit_count : Int) : Int :=
  Int.tdiv (toInt32 (page_size * bit_count)) (toInt32 (kPointerSize * kPointerSize))

/-- The local `bitfield` of `GetMarkingWord`, line 176: the base of the page. -/
def bitfieldBase (ptr : Nat) (page_size : Int) : Nat :=
  ptr % 18446744073709551616 &&& toUInt64 (~~~ toInt32 (page_size - 1))

/-- The local `page` of `GetMarkingWord` after lines 177-181: where objects start. -/
def pageStart (ptr : Nat) (page_size bit_count : Int) : Nat :=
  let page : Nat :=
    (bitfieldBase ptr page_size + toUInt64 (bitfieldSize page_size bit_count))
      % 18446744073709551616
  if page &&& toUInt64 (kAlign - 1) ≠ 0 then
    ((page ||| toUInt64 (kAlign - 1)) + 1) % 18446744073709551616
  else page

/-- The local `bit_off` of `GetMarkingWord`, line 183. -/
def bitOffset (ptr : Nat) (page_size bit_count : Int) : Nat :=
  (subUInt64 ptr (pageStart ptr page_size bit_count) * toUInt64 bit_count)
    % 18446744073709551616 / toUInt64 kPointerSize

/-- `GetMarkingWord(ptr, page_size, bit_count, &shift)`, lines 169-186: the address
of the mark word and the shift stored through `shift` (a value below 8, so that
its conversion to `int` is exact). -/
def GetMarkingWord (ptr : Nat) (page_size bit_count : Int) : Nat × Nat :=
  let bit_off := bitOffset ptr page_size bit_count
  let shift := bit_off &&& toUInt64 (kPointerSize - 1)
  ((bitfieldBase ptr page_size + 8 * (bit_off / toUInt64 kPointerSize))
      % 18446744073709551616, shift)

/-- The test of lines 203 and 236 on the `uint64_t` page size: true when the
error is thrown. -/
def pageSizeRejected (page_size : Nat) : Bool :=
  page_size &&& notUInt64 (subUInt64 page_size 1) ≠ page_size

/-- `ReadMark(obj, pageSize, bitCount)`, lines 189-216. -/
def ReadMark (mem : Mem) (buf : View) (pageSize bitCount : Int) : Except String Nat :=
  let page_size : Nat := toUInt64 (Int32Value pageSize)
  let bit_count : Nat := toUInt32 (Int32Value bitCount)
  if pageSizeRejected page_size then
    Except.error "Page size is not a power of two"
  else
    let ws := GetMarkingWord buf.data (toInt32 page_size) (toInt32 bit_count)
    let res := load64 mem ws.1
    let res := res >>> ws.2
    let res := res &&& toUInt64 (toInt32 (shlInt32 1 bit_count - 1))
    Except.ok (toUInt32 res)

/-- `WriteMark(obj, mark, pageSize, bitCount)`, lines 219-252. -/
def WriteMark (mem : Mem) (buf : View) (mark pageSize bitCount : Int) : Except String Mem :=
  let mark : Nat := toUInt32 (Int32Value mark)
  let page_size : Nat := toUInt64 (Int32Value pageSize)
  let bit_count : Nat := toUInt32 (Int32Value bitCount)
  if pageSizeRejected page_size then
    Except.error "Page size is not a power of two"
  else
    let ws := GetMarkingWord buf.data (toInt32 page_size) (toInt32 bit_count)
    let res := load64 mem ws.1
    let res := res &&& toUInt64 (~~~ shlInt32 (toInt32 (shlInt32 1 bit_count - 1)) ws.2)
    Except.ok (store64 mem ws.1 (res ||| (mark <<< ws.2) % 4294967296))

/-! ## Bump allocation (`heap.cc` lines 350-380) -/

/-- What `PointerAdd` hands back: `false`, an aborted `assert`, or a buffer. -/
inductive BumpResult where
  | noAllocation
  | assertionFailed
  | allocated (v : View)
  deriving DecidableEq, Repr

/-- `PointerAdd(pos, limit, size)`, lines 350-380. `assertsEnabled` tells whether
the `assert` of line 369 is compiled in. The cells `*pos` and `*limit` are
`intptr_t`; sums are wrapped into that type. The length of the returned buffer
is `size` converted to the `size_t` parameter of `NanNewBufferHandle`. -/
def PointerAdd (assertsEnabled : Bool) (mem : Mem) (posBuf limitBuf : View) (size : Int) :
    BumpResult × Mem :=
  let pos : Nat := posBuf.data
  let limit : Nat := limitBuf.data
  let size : Int := Int32Value size
  if toInt64 (toInt64 (load64 mem pos) + size) > toInt64 (load64 mem limit) then
    (BumpResult.noAllocation, mem)
  else
    let res : Int := toInt64 (load64 mem pos)
    if assertsEnabled ∧ toUInt64 res &&& toUInt64 kTagPointer = 0 then
      (BumpResult.assertionFailed, mem)
    else
      let res : Nat := toUInt64 res ^^^ toUInt64 kTagPointer
      let mem := store64 mem pos (toUInt64 (toInt64 (toInt64 (load64 mem pos) + size)))
      let mem :=
        if Int.tmod size kAlign ≠ 0 then
          store64 mem pos (toUInt64 (toInt64
            (toInt64 (load64 mem pos) + (kAlign - Int.tmod size kAlign))))
        else mem
      (BumpResult.allocated ⟨res, toUInt64 size⟩, mem)

/-- Rounding `size` up to the next multiple of `align`, as the specification words it. -/
def roundUp (size align : Int) : Int := (size + align - 1) / align * align

/-! ## A concrete memory for the bump examples -/

/-- A zeroed memory holding `pos` in the cell at address 1000 and `limit` in the
cell at address 2000. -/
def bumpCells (pos limit : Nat) : Mem := store64 (store64 (fun _ => 0) 1000 pos) 2000 limit

/-! ## Interior pointers (`heap.cc` lines 98-150) -/

/-- `WriteInterior(dst, src, off, ioff)`, lines 98-123. It has no error path
past the argument checks. -/
def WriteInterior (mem : Mem) (dst src : View) (off ioff : Int) : Mem :=
  let interior_off : Int := Int32Value ioff
  let tagged_src : Nat := src.data
  let tagged_src := (tagged_src + toUInt64 interior_off) % 18446744073709551616
  let off := toUInt32 (Int32Value off)
  store64 mem (dst.data + off) tagged_src

/-- `ReadInterior(src, off, ioff)`, lines 126-150. -/
def ReadInterior (mem : Mem) (src : View) (off ioff : Int) : View :=
  let off := toUInt32 (Int32Value off)
  let res : Nat := load64 mem (src.data + off)
  let interior_off : Int := Int32Value ioff
  let res := subUInt64 res (toUInt64 interior_off)
  ⟨res, kUnknownLength⟩

/-! ## Identity (`heap.cc` lines 153-166) -/

/-- `IsSame(a, b)`, lines 153-166: the answer, and the memory the call leaves. -/
def IsSame (mem : Mem) (a b : View) : Bool × Mem :=
  (decide (a.data = b.data), mem)

/-! ## Native calls (`heap.cc` lines 255-347) -/

/-- An element of the argument array of `Call`: a number, a `Buffer`, or any
other JavaScript value. -/
inductive Arg where
  | number (n : Int)
  | buffer (v : View)
  | other
  deriving DecidableEq, Repr

/-- The loop of lines 288-301: the words `pargs[0..]` (each an `intptr_t`), or
the first error met. -/
def tagArgs : List Arg → Except String (List Int)
  | [] => Except.ok []
  | Arg.buffer v :: rest =>
    let parg : Int := toInt64 v.data
    if toUInt64 parg &&& toUInt64 kTagMask = toUInt64 kTagPointer then
      Except.error "Unaligned pointer is given"
    else
      match tagArgs rest with
      | Except.ok pargs => Except.ok (toInt64 (toUInt64 parg ||| toUInt64 kTagPointer) :: pargs)
      | Except.error e => Except.error e
  | Arg.number n :: rest =>
    match tagArgs rest with
    | Except.ok pargs => Except.ok (toInt64 (Int32Value n * 2 ^ kTagShift) :: pargs)
    | Except.error e => Except.error e
  | Arg.other :: _ => Except.error "Each arg should be a buffer instance or number"

/-- What a call of `Call` leaves: the value returned or the error thrown, the
memory, and whether the native code was entered. -/
structure CallResult where
  result : Except String Value
  mem : Mem
  invoked : Bool

/-- `Call(code, args)`, lines 255-347. The machine code is not part of the
embedding: `exec codeAddress words mem` stands for running the code at
`codeAddress` on the argument words, giving the returned word and the memory it
leaves. `res >> 1` on an `intptr_t` is the arithmetic shift, `res / 2` rounded
down. -/
def Call (exec : Nat → List Int → Mem → Int × Mem) (mem : Mem) (code : View)
    (args : List Arg) : CallResult :=
  if args.length > 7 then
    ⟨Except.error "Only args.length <= 6 is supported", mem, false⟩
  else
    match tagArgs args with
    | Except.error e => ⟨Except.error e, mem, false⟩
    | Except.ok pargs =>
      let r := exec code.data pargs mem
      let res : Int := toInt64 r.1
      if toUInt64 res &&& toUInt64 kTagMask = toUInt64 kTagPointer then
        let res : Nat := toUInt64 res ^^^ toUInt64 kTagPointer
        ⟨Except.ok (Value.buffer ⟨res, kUnknownLength⟩), r.2, true⟩
      else
        ⟨Except.ok (Value.number (toInt32 (res / 2))), r.2, true⟩

/-- Native code of arity 1 that returns its argument word and touches no memory. -/
def identityCode : Nat → List Int → Mem → Int × Mem :=
  fun _ words mem => (words.headD 0, mem)

/-! ## The writing operations with the memory handed on

`WriteTagged` and `WriteMark` once more, statement by statement, giving the
outcome together with the memory at the point where the function is left, be
it by `NanThrowError` or by `NanReturnUndefined`. -/

/-- `WriteTagged`, lines 25-57, with the memory it leaves. -/
def runWriteTagged (mem : Mem) (dst : View) (src : Value) (off : Int) :
    Except String Unit × Mem :=
  match src with
  | Value.buffer s =>
    let tagged_src : Nat := s.data
    if tagged_src &&& toUInt64 kTagMask = toUInt64 kTagPointer then
      (Except.error "Unaligned src buffer", mem)
    else
      let tagged_src := tagged_src ||| 1
      let off := toUInt32 (Int32Value off)
      (Except.ok (), store64 mem (dst.data + off) tagged_src)
  | Value.number n =>
    let tagged_src : Nat := toUInt64 (Int32Value n)
    if tagged_src &&& toUInt64 kSmiMask ≠ tagged_src then
      (Except.error "Too big number to be tagged", mem)
    else
      let tagged_src := (tagged_src <<< 1) % 18446744073709551616
      let off := toUInt32 (Int32Value off)
      (Except.ok (), store64 mem (dst.data + off) tagged_src)

/-- `WriteMark`, lines 219-252, with the memory it leaves. -/
def runWriteMark (mem : Mem) (buf : View) (mark pageSize bitCount : Int) :
    Except String Unit × Mem :=
  let mark : Nat := toUInt32 (Int32Value mark)
  let page_size : Nat := toUInt64 (Int32Value pageSize)
  let bit_count : Nat := toUInt32 (Int32Value bitCount)
  if pageSizeRejected page_size then
    (Except.error "Page size is not a power of two", mem)
  else
    let ws := GetMarkingWord buf.data (toInt32 page_size) (toInt32 bit_count)
    let res := load64 mem ws.1
    let res := res &&& toUInt64 (~~~ shlInt32 (toInt32 (shlInt32 1 bit_count - 1)) ws.2)
    (Except.ok (), store64 mem ws.1 (res ||| (mark <<< ws.2) % 4294967296))

/-! ## Sequences of bump allocations -/

/-- A run of `PointerAdd` calls on one `pos` buffer, each call with its own
`limit` buffer and size, every call starting in the memory the one before left.
A call that aborts on the `assert` ends the run. -/
def PointerAddSeq (assertsEnabled : Bool) (posBuf : View) :
    Mem → List (View × Int) → List BumpResult × Mem
  | mem, [] => ([], mem)
  | mem, call :: rest =>
    let r := PointerAdd assertsEnabled mem posBuf call.1 call.2
    if r.1 = BumpResult.assertionFailed then ([r.1], r.2)
    else
      let rs := PointerAddSeq assertsEnabled posBuf r.2 rest
      (r.1 :: rs.1, rs.2)

/-! ## The mark bitmap addressor as the specification words it -/

/-- Step 1 of the specification: `bitfieldSize = P*B / wordSize²`. -/
def specBitfieldSize (P B : Nat) : Nat := P * B / (8 * 8)

/-- Step 2 of the specification: `bitfieldBase = address & ~(P-1)`, on 64 bits. -/
def specBitfieldBase (a P : Nat) : Nat := a &&& notUInt64 (P - 1)

/-- Step 3 of the specification: the least multiple of `align` (16) that is not
below `bitfieldBase + bitfieldSize`. -/
def specPageStart (a P B : Nat) : Nat :=
  (specBitfieldBase a P + specBitfieldSize P B + 15) / 16 * 16

/-- Step 4 of the specification: `bitOffset = (address - pageStart) * B / wordSize`. -/
def specBitOffset (a P B : Nat) : Nat := (a - specPageStart a P B) * B / 8

/-- Step 5 of the specification: the word at
`bitfieldBase + (bitOffset / wordSize) * wordSize` and the shift
`bitOffset % wordSize`. -/
def specMarkingWord (a P B : Nat) : Nat × Nat :=
  (specBitfieldBase a P + specBitOffset a P B / 8 * 8, specBitOffset a P B % 8)

/-- What lines 371-373 add to `*pos`: `size`, and the padding up to `kAlign`
when `size % kAlign` is not zero. -/
def bumpAdvance (size : Int) : Int :=
  size + (if Int.tmod size kAlign ≠ 0 then kAlign - Int.tmod size kAlign else 0)

/-! ## Machine-integer lemmas -/

theorem toInt32_of_range (x : Int) (h0 : -2147483648 ≤ x) (h1 : x < 2147483648) :
    toInt32 x = x := by
  unfold toInt32; omega

theorem toUInt64_natCast (k : Nat) (h : k < 18446744073709551616) :
    toUInt64 (k : Int) = k := by
  unfold toUInt64; omega

theorem toUInt32_natCast (k : Nat) (h : k < 4294967296) :
    toUInt32 (k : Int) = k := by
  unfold toUInt32; omega

theorem toUInt32_toInt32 (x : Int) : toUInt32 (toInt32 x) = toUInt32 x := by
  unfold toUInt32 toInt32; omega

theorem toUInt32_Int32Value (x : Int) : toUInt32 (Int32Value x) = toUInt32 x :=
  toUInt32_toInt32 x

theorem toInt64_range (x : Int) :
    -9223372036854775808 ≤ toInt64 x ∧ toInt64 x < 9223372036854775808 := by
  unfold toInt64; omega

theorem toInt64_of_range (x : Int) (h0 : -9223372036854775808 ≤ x)
    (h1 : x < 9223372036854775808) : toInt64 x = x := by
  unfold toInt64; omega

theorem toInt64_add_left (a b : Int) : toInt64 (toInt64 a + b) = toInt64 (a + b) := by
  unfold toInt64; omega

theorem toUInt64_toInt64 (x : Int) : toUInt64 (toInt64 x) = toUInt64 x := by
  unfold toUInt64 toInt64; omega

theorem toInt64_toUInt64 (x : Int) : toInt64 ((toUInt64 x : Nat) : Int) = toInt64 x := by
  unfold toUInt64 toInt64; omega

theorem toUInt64_pred (n : Nat) (h : n < 18446744073709551616) (h1 : 1 ≤ n) :
    toUInt64 (toInt64 n - 1) = n - 1 := by
  unfold toUInt64 toInt64
  omega

theorem toUInt64_add_left (a b : Int) : toUInt64 (toInt64 a + b) = toUInt64 (a + b) := by
  unfold toUInt64 toInt64; omega

theorem toUInt64_lt (x : Int) : toUInt64 x < 18446744073709551616 := by
  unfold toUInt64; omega

theorem toUInt64_of_nonneg (x : Int) (h0 : 0 ≤ x) (h1 : x < 18446744073709551616) :
    toUInt64 x = x.toNat := by
  unfold toUInt64; omega

theorem or_one_of_even (a : Nat) (h : a % 2 = 0) : a ||| 1 = a + 1 := by
  have h1 : (a ||| 1) / 2 = a / 2 := by rw [Nat.or_div_two]; simp
  have h2 : (a ||| 1) % 2 = 1 := by rw [Nat.or_mod_two_eq_one]; simp
  omega

theorem xor_one_of_odd (a : Nat) (h : a % 2 = 1) : a ^^^ 1 = a - 1 := by
  have h1 : (a ^^^ 1) / 2 = a / 2 := by rw [Nat.xor_div_two]; simp
  have h2 : (a ^^^ 1) % 2 = 0 := by rw [Nat.xor_mod_two_eq]; omega
  omega

theorem xor_one_of_even (a : Nat) (h : a % 2 = 0) : a ^^^ 1 = a + 1 := by
  have h1 : (a ^^^ 1) / 2 = a / 2 := by rw [Nat.xor_div_two]; simp
  have h2 : (a ^^^ 1) % 2 = 1 := by rw [Nat.xor_mod_two_eq]; omega
  omega

theorem toUInt64_kTagMask : toUInt64 kTagMask = 1 := by decide

theorem toUInt64_kTagPointer : toUInt64 kTagPointer = 1 := by decide

theorem toUInt64_kTagSmi : toUInt64 kTagSmi = 0 := by decide

theorem toUInt64_kSmiMask : toUInt64 kSmiMask = 2 ^ 31 - 1 := by decide

/-! ## Memory lemmas -/

theorem byteAddr_inj (a i j : Nat) (hi : i < 8) (hj : j < 8)
    (h : byteAddr a i = byteAddr a j) : i = j := by
  unfold byteAddr at h
  omega

theorem store64_byte (mem : Mem) (a v i : Nat) (hi : i < 8) :
    store64 mem a v (byteAddr a i) = v / 256 ^ i % 256 := by
  have h0 := byteAddr_inj a i 0 hi (by omega)
  have h1 := byteAddr_inj a i 1 hi (by omega)
  have h2 := byteAddr_inj a i 2 hi (by omega)
  have h3 := byteAddr_inj a i 3 hi (by omega)
  have h4 := byteAddr_inj a i 4 hi (by omega)
  have h5 := byteAddr_inj a i 5 hi (by omega)
  have h6 := byteAddr_inj a i 6 hi (by omega)
  have h7 := byteAddr_inj a i 7 hi (by omega)
  unfold store64
  interval_cases i <;> simp_all

theorem store64_other (mem : Mem) (a v x : Nat)
    (h : ∀ i, i < 8 → x ≠ byteAddr a i) : store64 mem a v x = mem x := by
  unfold store64
  simp [h 0, h 1, h 2, h 3, h 4, h 5, h 6, h 7]

theorem load64_store64_same (mem : Mem) (a v : Nat) :
    load64 (store64 mem a v) a = v % 18446744073709551616 := by
  unfold load64
  rw [store64_byte mem a v 0 (by omega), store64_byte mem a v 1 (by omega),
    store64_byte mem a v 2 (by omega), store64_byte mem a v 3 (by omega),
    store64_byte mem a v 4 (by omega), store64_byte mem a v 5 (by omega),
    store64_byte mem a v 6 (by omega), store64_byte mem a v 7 (by omega)]
  norm_num
  omega

theorem load64_store64_disjoint (mem : Mem) (a b v : Nat)
    (h : ∀ i j, i < 8 → j < 8 → byteAddr b j ≠ byteAddr a i) :
    load64 (store64 mem a v) b = load64 mem b := by
  unfold load64
  rw [store64_other mem a v _ (fun i hi => h i 0 hi (by omega)),
    store64_other mem a v _ (fun i hi => h i 1 hi (by omega)),
    store64_other mem a v _ (fun i hi => h i 2 hi (by omega)),
    store64_other mem a v _ (fun i hi => h i 3 hi (by omega)),
    store64_other mem a v _ (fun i hi => h i 4 hi (by omega)),
    store64_other mem a v _ (fun i hi => h i 5 hi (by omega)),
    store64_other mem a v _ (fun i hi => h i 6 hi (by omega)),
    store64_other mem a v _ (fun i hi => h i 7 hi (by omega))]

theorem load64_lt (mem : Mem) (a : Nat) : load64 mem a < 18446744073709551616 := by
  unfold load64
  omega

theorem load64_store64_toUInt64 (mem : Mem) (a : Nat) (x : Int) :
    load64 (store64 mem a (toUInt64 x)) a = toUInt64 x := by
  rw [load64_store64_same, Nat.mod_eq_of_lt (toUInt64_lt x)]

/-! ## Tagged values: what each branch computes -/

theorem readTagged_mask :
    toUInt64 (orInt32 (shlInt32 kSmiMask 1) kTagMask) = 2 ^ 64 - 1 := by decide

theorem writeTagged_number_ok (mem : Mem) (dst : View) (off : Int) (k : Nat)
    (hk : k < 2147483648) :
    WriteTagged mem dst (Value.number (k : Int)) off
      = Except.ok (store64 mem (dst.data + toUInt32 (Int32Value off)) (2 * k)) := by
  have h1 : toUInt64 (Int32Value (k : Int)) = k := by
    unfold Int32Value
    rw [toInt32_of_range _ (by omega) (by omega), toUInt64_natCast _ (by omega)]
  simp only [WriteTagged, h1, toUInt64_kSmiMask, Nat.and_pow_two_sub_one_eq_mod]
  have h2 : k % 2 ^ 31 = k := Nat.mod_eq_of_lt (by omega)
  have h3 : (k <<< 1) % 18446744073709551616 = 2 * k := by
    rw [Nat.shiftLeft_eq]; omega
  simp [h2, h3, hk]

theorem writeTagged_number_error (mem : Mem) (dst : View) (off v : Int)
    (hlo : -2147483648 ≤ v) (hneg : v < 0) :
    WriteTagged mem dst (Value.number v) off = Except.error "Too big number to be tagged" := by
  have h1 : toUInt64 (Int32Value v) = (18446744073709551616 + v).toNat := by
    unfold Int32Value
    rw [toInt32_of_range _ (by omega) (by omega)]
    unfold toUInt64
    omega
  have h2 : (18446744073709551616 + v).toNat % 2 ^ 31 ≠ (18446744073709551616 + v).toNat := by
    have : (2 : Nat) ^ 31 = 2147483648 := by norm_num
    omega
  simp only [WriteTagged, h1, toUInt64_kSmiMask, Nat.and_pow_two_sub_one_eq_mod]
  rw [if_pos h2]

theorem writeTagged_buffer_ok (mem : Mem) (dst s : View) (off : Int)
    (h : s.data % 2 = 0) :
    WriteTagged mem dst (Value.buffer s) off
      = Except.ok (store64 mem (dst.data + toUInt32 (Int32Value off)) (s.data + 1)) := by
  simp only [WriteTagged, toUInt64_kTagMask, toUInt64_kTagPointer, Nat.and_one_is_mod, h,
    or_one_of_even _ h]
  simp

theorem writeTagged_buffer_error (mem : Mem) (dst s : View) (off : Int)
    (h : s.data % 2 = 1) :
    WriteTagged mem dst (Value.buffer s) off = Except.error "Unaligned src buffer" := by
  simp only [WriteTagged, toUInt64_kTagMask, toUInt64_kTagPointer, Nat.and_one_is_mod, h]
  simp

theorem readTagged_even (mem : Mem) (src : View) (off : Int)
    (h : load64 mem (src.data + toUInt32 (Int32Value off)) % 2 = 0) :
    ReadTagged mem src off = Except.ok (Value.number
      (toInt32 (toUInt32 ((load64 mem (src.data + toUInt32 (Int32Value off)) >>> 1 : Nat) : Int)))) := by
  have hlt := load64_lt mem (src.data + toUInt32 (Int32Value off))
  simp only [ReadTagged, toUInt64_kTagMask, toUInt64_kTagSmi, readTagged_mask,
    Nat.and_one_is_mod, Nat.and_pow_two_sub_one_eq_mod, h]
  have : load64 mem (src.data + toUInt32 (Int32Value off)) % 2 ^ 64
      = load64 mem (src.data + toUInt32 (Int32Value off)) := Nat.mod_eq_of_lt (by omega)
  simp [this, hlt]

theorem readTagged_odd (mem : Mem) (src : View) (off : Int)
    (h : load64 mem (src.data + toUInt32 (Int32Value off)) % 2 = 1) :
    ReadTagged mem src off = Except.ok (Value.buffer
      ⟨load64 mem (src.data + toUInt32 (Int32Value off)) - 1, kUnknownLength⟩) := by
  simp only [ReadTagged, toUInt64_kTagMask, toUInt64_kTagSmi, toUInt64_kTagPointer,
    Nat.and_one_is_mod, h, xor_one_of_odd _ h]
  simp

theorem readTagged_never_invalid (mem : Mem) (src : View) (off : Int) :
    ReadTagged mem src off ≠ Except.error "Invalid untagged number" := by
  rcases Nat.mod_two_eq_zero_or_one (load64 mem (src.data + toUInt32 (Int32Value off)))
    with h | h
  · rw [readTagged_even mem src off h]
    exact fun h => Except.noConfusion h
  · rw [readTagged_odd mem src off h]
    exact fun h => Except.noConfusion h

/-! ## Bits of the mark word -/

theorem shifted_mask_lt (B s : Nat) (hB : B ≤ 8) (hs : s ≤ 7) :
    (2 ^ B - 1) <<< s < 2 ^ 64 := by
  interval_cases B <;> interval_cases s <;> decide

theorem testBit_shifted_mask (B s i : Nat) :
    ((2 ^ B - 1) <<< s).testBit i = (decide (s ≤ i) && decide (i < s + B)) := by
  rw [Nat.testBit_shiftLeft, Nat.testBit_two_pow_sub_one]
  by_cases h1 : s ≤ i <;> by_cases h2 : i < s + B <;> simp [h1, h2] <;> omega

theorem testBit_markWord (w mk B s i : Nat) (hB : B ≤ 8) (hs : s ≤ 7) :
    ((w &&& (2 ^ 64 - (((2 ^ B - 1) <<< s) + 1))) ||| (mk <<< s) % 4294967296).testBit i
      = ((w.testBit i && decide (i < 64) && !(decide (s ≤ i) && decide (i < s + B)))
          || (decide (i < 32) && decide (s ≤ i) && mk.testBit (i - s))) := by
  have h32 : (4294967296 : Nat) = 2 ^ 32 := by norm_num
  rw [h32, Nat.testBit_or, Nat.testBit_and, Nat.testBit_mod_two_pow,
    Nat.testBit_two_pow_sub_succ (shifted_mask_lt B s hB hs), testBit_shifted_mask,
    Nat.testBit_shiftLeft]
  simp only [ge_iff_le, Bool.and_assoc]

theorem testBit_of_lt_two_pow_le (x n j : Nat) (hx : x < 2 ^ n) (hj : n ≤ j) :
    x.testBit j = false :=
  Nat.testBit_lt_two_pow (Nat.lt_of_lt_of_le hx (Nat.pow_le_pow_right (by omega) hj))

theorem markWord_lt (w mk B s : Nat) (hw : w < 2 ^ 64) :
    (w &&& (2 ^ 64 - (((2 ^ B - 1) <<< s) + 1))) ||| (mk <<< s) % 4294967296 < 2 ^ 64 := by
  apply Nat.or_lt_two_pow
  · exact Nat.lt_of_le_of_lt Nat.and_le_left hw
  · have : (mk <<< s) % 4294967296 < 4294967296 := Nat.mod_lt _ (by omega)
    have h2 : (4294967296 : Nat) < 2 ^ 64 := by norm_num
    omega

theorem markWord_readback (w mk B s : Nat) (hB : B ≤ 8) (hs : s ≤ 7) :
    (((w &&& (2 ^ 64 - (((2 ^ B - 1) <<< s) + 1))) ||| (mk <<< s) % 4294967296) >>> s)
      &&& (2 ^ B - 1) = mk &&& (2 ^ B - 1) := by
  apply Nat.eq_of_testBit_eq
  intro i
  rw [Nat.testBit_and, Nat.testBit_shiftRight, testBit_markWord _ _ _ _ _ hB hs,
    Nat.testBit_and, Nat.testBit_two_pow_sub_one]
  by_cases hi : i < B
  · have h1 : s + i < 32 := by omega
    have h2 : s + i - s = i := by omega
    simp [hi, h1, h2]
  · simp [hi]

theorem markWord_other_bits (w mk B s j : Nat) (hB : B ≤ 8) (hs : s ≤ 7)
    (hw : w < 2 ^ 64) (hmk : mk < 2 ^ B) (hj : j < s ∨ s + B ≤ j) :
    ((w &&& (2 ^ 64 - (((2 ^ B - 1) <<< s) + 1))) ||| (mk <<< s) % 4294967296).testBit j
      = w.testBit j := by
  rw [testBit_markWord _ _ _ _ _ hB hs]
  by_cases h64 : j < 64
  · rcases hj with hj | hj
    · have h1 : ¬ s ≤ j := by omega
      simp [h64, h1]
    · have h1 : ¬ j < s + B := by omega
      have h2 : mk.testBit (j - s) = false :=
        testBit_of_lt_two_pow_le mk B (j - s) hmk (by omega)
      simp [h64, h1, h2]
  · have h1 : w.testBit j = false := testBit_of_lt_two_pow_le w 64 j hw (by omega)
    have h2 : ¬ j < 32 := by omega
    simp [h1, h2]

theorem markWord_read_other (w mk B s B2 s2 : Nat) (hB : B ≤ 8) (hs : s ≤ 7)
    (hw : w < 2 ^ 64) (hmk : mk < 2 ^ B) (hdis : s2 + B2 ≤ s ∨ s + B ≤ s2) :
    (((w &&& (2 ^ 64 - (((2 ^ B - 1) <<< s) + 1))) ||| (mk <<< s) % 4294967296) >>> s2)
      &&& (2 ^ B2 - 1) = (w >>> s2) &&& (2 ^ B2 - 1) := by
  apply Nat.eq_of_testBit_eq
  intro i
  rw [Nat.testBit_and, Nat.testBit_shiftRight, Nat.testBit_and, Nat.testBit_shiftRight,
    Nat.testBit_two_pow_sub_one]
  by_cases hi : i < B2
  · rw [markWord_other_bits w mk B s (s2 + i) hB hs hw hmk (by omega)]
  · simp [hi]

theorem markWord_fits (mk B s : Nat) (hmk : mk < 2 ^ B) (hB : B ≤ 8) (hs : s ≤ 7) :
    (mk <<< s) % 4294967296 = (mk &&& (2 ^ B - 1)) <<< s := by
  rw [Nat.and_pow_two_sub_one_of_lt_two_pow hmk]
  apply Nat.mod_eq_of_lt
  rw [Nat.shiftLeft_eq]
  have h1 : mk < 2 ^ 8 := Nat.lt_of_lt_of_le hmk (Nat.pow_le_pow_right (by omega) hB)
  have h2 : 2 ^ s ≤ 2 ^ 7 := Nat.pow_le_pow_right (by omega) hs
  calc mk * 2 ^ s ≤ 2 ^ 8 * 2 ^ 7 := Nat.mul_le_mul (by omega) h2
    _ < 4294967296 := by norm_num

theorem notUInt64_shifted_mask (B s : Nat) (hB : B ≤ 8) (hs : s ≤ 7) :
    notUInt64 ((2 ^ B - 1) <<< s) = 2 ^ 64 - (((2 ^ B - 1) <<< s) + 1) := by
  have h := shifted_mask_lt B s hB hs
  have h64 : (2 : Nat) ^ 64 = 18446744073709551616 := by norm_num
  unfold notUInt64
  rw [h64] at h ⊢
  rw [Nat.mod_eq_of_lt h]
  omega

/-! ## The page-size test -/

theorem pageSize_accepted (k : Nat) (hk : k ≤ 30) :
    pageSizeRejected (toUInt64 (Int32Value (2 ^ k))) = false := by
  interval_cases k <;> rfl

theorem pageSize_toInt32 (k : Nat) (hk : k ≤ 30) :
    toInt32 ((toUInt64 (Int32Value (2 ^ k)) : Nat) : Int) = 2 ^ k := by
  interval_cases k <;> rfl

theorem pow_two_of_and_pred (x : Nat) (hx : 1 ≤ x) (h : x &&& (x - 1) = 0) :
    ∃ v, x = 2 ^ v := by
  induction x using Nat.strong_induction_on with
  | _ x ih =>
    have hdiv : (x / 2) &&& ((x - 1) / 2) = 0 := by
      rw [← Nat.and_div_two, h]
    rcases Nat.mod_two_eq_zero_or_one x with hpar | hpar
    · have h1 : (x - 1) / 2 = x / 2 - 1 := by omega
      rw [h1] at hdiv
      obtain ⟨v, hv⟩ := ih (x / 2) (by omega) (by omega) hdiv
      refine ⟨v + 1, ?_⟩
      rw [Nat.pow_succ, ← hv]
      omega
    · have h1 : (x - 1) / 2 = x / 2 := by omega
      rw [h1, Nat.and_self] at hdiv
      exact ⟨0, by omega⟩

theorem and_pred_of_and_not (x : Nat) (hx : 1 ≤ x) (hlt : x < 2 ^ 64)
    (h : x &&& (2 ^ 64 - ((x - 1) + 1)) = x) : x &&& (x - 1) = 0 := by
  apply Nat.eq_of_testBit_eq
  intro i
  have hi := congrArg (fun y => Nat.testBit y i) h
  simp only [Nat.testBit_and, Nat.testBit_two_pow_sub_succ (show x - 1 < 2 ^ 64 by omega)] at hi
  rw [Nat.testBit_and, Nat.zero_testBit]
  cases hx1 : x.testBit i <;> cases hx2 : (x - 1).testBit i <;> simp_all

/-- The test of lines 203 and 236 on a 32-bit page size: it lets through the
powers of two and zero, and nothing else. -/
theorem pageSizeRejected_false_iff (P : Int) (hlo : -2147483648 ≤ P) (hhi : P ≤ 2147483647) :
    pageSizeRejected (toUInt64 (Int32Value P)) = false
      ↔ (P = 0 ∨ ∃ k : Nat, k ≤ 30 ∧ P = 2 ^ k) := by
  constructor
  · intro h
    by_cases h0 : P = 0
    · exact Or.inl h0
    · right
      have hP : Int32Value P = P := toInt32_of_range P hlo (by omega)
      rw [hP] at h
      have hx1 : 1 ≤ toUInt64 P := by unfold toUInt64; omega
      have hxlt := toUInt64_lt P
      have h64 : (2 : Nat) ^ 64 = 18446744073709551616 := by norm_num
      have hsub : subUInt64 (toUInt64 P) 1 = toUInt64 P - 1 := by
        unfold subUInt64; omega
      have hnot : notUInt64 (toUInt64 P - 1) = 2 ^ 64 - ((toUInt64 P - 1) + 1) := by
        unfold notUInt64; omega
      have hand : toUInt64 P &&& (2 ^ 64 - ((toUInt64 P - 1) + 1)) = toUInt64 P := by
        unfold pageSizeRejected at h
        rw [hsub, hnot] at h
        simpa using h
      obtain ⟨v, hv⟩ := pow_two_of_and_pred _ hx1
        (and_pred_of_and_not _ hx1 (by omega) hand)
      have hv63 : v < 64 := by
        by_contra hge
        have : (2 : Nat) ^ 64 ≤ 2 ^ v := Nat.pow_le_pow_right (by omega) (by omega)
        omega
      have hle : (2 : Nat) ^ v ≤ 2 ^ 63 := Nat.pow_le_pow_right (by omega) (by omega)
      have h63 : (2 : Nat) ^ 63 = 9223372036854775808 := by norm_num
      have hPpos : 0 ≤ P := by
        by_contra hneg
        have : toUInt64 P = (18446744073709551616 + P).toNat := by unfold toUInt64; omega
        omega
      have hPeq : toUInt64 P = P.toNat := toUInt64_of_nonneg P hPpos (by omega)
      have hv30 : v ≤ 30 := by
        by_contra hgt
        have : (2 : Nat) ^ 31 ≤ 2 ^ v := Nat.pow_le_pow_right (by omega) (by omega)
        have h31 : (2 : Nat) ^ 31 = 2147483648 := by norm_num
        omega
      refine ⟨v, hv30, ?_⟩
      have hnat : P.toNat = 2 ^ v := by rw [← hPeq]; exact hv
      calc P = ((P.toNat : Nat) : Int) := (Int.toNat_of_nonneg hPpos).symm
        _ = ((2 ^ v : Nat) : Int) := by rw [hnat]
        _ = 2 ^ v := by simp
  · rintro (rfl | ⟨k, hk, rfl⟩)
    · rfl
    · exact pageSize_accepted k hk

theorem readMark_error_iff (mem : Mem) (buf : View) (P B : Int) :
    ReadMark mem buf P B = Except.error "Page size is not a power of two"
      ↔ pageSizeRejected (toUInt64 (Int32Value P)) = true := by
  unfold ReadMark
  cases h : pageSizeRejected (toUInt64 (Int32Value P)) <;> simp [h]

theorem writeMark_error_iff (mem : Mem) (buf : View) (m P B : Int) :
    WriteMark mem buf m P B = Except.error "Page size is not a power of two"
      ↔ pageSizeRejected (toUInt64 (Int32Value P)) = true := by
  unfold WriteMark
  cases h : pageSizeRejected (toUInt64 (Int32Value P)) <;> simp [h]

/-! ## Marks: what `ReadMark` and `WriteMark` compute -/

theorem bitCount_toUInt32 (B : Nat) (hB : B ≤ 8) : toUInt32 (Int32Value (B : Int)) = B := by
  interval_cases B <;> rfl

theorem readMask_eq (B : Nat) (hB : B ≤ 8) :
    toUInt64 (toInt32 (shlInt32 1 B - 1)) = 2 ^ B - 1 := by
  interval_cases B <;> rfl

theorem clearMask_eq (B s : Nat) (hB : B ≤ 8) (hs : s ≤ 7) :
    toUInt64 (~~~ shlInt32 (toInt32 (shlInt32 1 B - 1)) s)
      = 2 ^ 64 - (((2 ^ B - 1) <<< s) + 1) := by
  interval_cases B <;> interval_cases s <;> rfl

theorem getMarkingWord_shift_le (ptr : Nat) (P B : Int) : (GetMarkingWord ptr P B).2 ≤ 7 := by
  unfold GetMarkingWord
  have : toUInt64 (kPointerSize - 1) = 7 := rfl
  simp only [this]
  exact Nat.and_le_right

theorem writeMark_eq (mem : Mem) (buf : View) (k B : Nat) (m : Int)
    (hk : k ≤ 30) (hB8 : B ≤ 8) :
    WriteMark mem buf m (2 ^ k) B = Except.ok (store64 mem (GetMarkingWord buf.data (2 ^ k) B).1
      ((load64 mem (GetMarkingWord buf.data (2 ^ k) B).1
          &&& (2 ^ 64 - (((2 ^ B - 1) <<< (GetMarkingWord buf.data (2 ^ k) B).2) + 1)))
        ||| (toUInt32 m <<< (GetMarkingWord buf.data (2 ^ k) B).2) % 4294967296)) := by
  have hs := getMarkingWord_shift_le buf.data (2 ^ k) B
  unfold WriteMark
  simp only [pageSize_accepted k hk, pageSize_toInt32 k hk, bitCount_toUInt32 B hB8,
    toInt32_of_range (B : Int) (by omega) (by omega), toUInt32_Int32Value,
    clearMask_eq B _ hB8 hs, Bool.false_eq_true, if_false]

theorem readMark_eq (mem : Mem) (buf : View) (k B : Nat)
    (hk : k ≤ 30) (hB8 : B ≤ 8) :
    ReadMark mem buf (2 ^ k) B = Except.ok
      ((load64 mem (GetMarkingWord buf.data (2 ^ k) B).1 >>> (GetMarkingWord buf.data (2 ^ k) B).2)
        &&& (2 ^ B - 1)) := by
  have hlt : (load64 mem (GetMarkingWord buf.data (2 ^ k) B).1
      >>> (GetMarkingWord buf.data (2 ^ k) B).2) &&& (2 ^ B - 1) < 4294967296 := by
    have h1 : (2 : Nat) ^ B ≤ 2 ^ 8 := Nat.pow_le_pow_right (by omega) hB8
    have h2 := @Nat.and_le_right (load64 mem (GetMarkingWord buf.data (2 ^ k) B).1
      >>> (GetMarkingWord buf.data (2 ^ k) B).2) (2 ^ B - 1)
    have h3 : (2 : Nat) ^ 8 = 256 := by norm_num
    omega
  unfold ReadMark
  simp only [pageSize_accepted k hk, pageSize_toInt32 k hk, bitCount_toUInt32 B hB8,
    toInt32_of_range (B : Int) (by omega) (by omega), readMask_eq B hB8,
    toUInt32_natCast _ hlt, Bool.false_eq_true, if_false]

/-! ## Bump allocation: what `PointerAdd` computes -/

theorem roundUp_align (size : Int) (h : 0 ≤ size) :
    roundUp size kAlign
      = if Int.tmod size kAlign ≠ 0 then size + (kAlign - Int.tmod size kAlign) else size := by
  have hA : kAlign = 16 := rfl
  rw [hA, Int.tmod_eq_emod h (by omega)]
  unfold roundUp
  split <;> omega

/-- The two stores of lines 371-373 leave `pos + size + padding` in the cell. -/
theorem pointerAdd_unfold (assertsEnabled : Bool) (mem : Mem) (posBuf limitBuf : View)
    (size : Int) (hsize0 : -2147483648 ≤ size) (hsize1 : size ≤ 2147483647)
    (hcmp : ¬ toInt64 (toInt64 (load64 mem posBuf.data) + size)
      > toInt64 (load64 mem limitBuf.data))
    (hassert : ¬ (assertsEnabled = true ∧ load64 mem posBuf.data % 2 = 0)) :
    PointerAdd assertsEnabled mem posBuf limitBuf size
      = (BumpResult.allocated ⟨load64 mem posBuf.data ^^^ 1, toUInt64 size⟩,
          if Int.tmod size kAlign ≠ 0 then
            store64 (store64 mem posBuf.data (toUInt64 (toInt64 (load64 mem posBuf.data) + size)))
              posBuf.data (toUInt64 (toInt64 (toInt64 (load64 mem posBuf.data) + size)
                + (kAlign - Int.tmod size kAlign)))
          else store64 mem posBuf.data (toUInt64 (toInt64 (load64 mem posBuf.data) + size))) := by
  have hlt := load64_lt mem posBuf.data
  have hsz : Int32Value size = size := toInt32_of_range size (by omega) (by omega)
  have hres : toUInt64 (toInt64 (load64 mem posBuf.data)) = load64 mem posBuf.data := by
    rw [toUInt64_toInt64, toUInt64_natCast _ hlt]
  unfold PointerAdd
  simp only [hsz, if_neg hcmp, hres, toUInt64_kTagPointer, Nat.and_one_is_mod, if_neg hassert,
    load64_store64_toUInt64, toInt64_toUInt64, toUInt64_toInt64]

/-! ## The claims -/

/-- C1. Mark round trip: for every power-of-two page size `2^k` (an `int32_t`, so
`k ≤ 30`), every bit count `1 ≤ B ≤ 8`, every buffer address, every initial
memory and every mark value `m`, `WriteMark` succeeds and `ReadMark` on the
memory it leaves returns `m & ((1 << B) - 1)`, the low `B` bits of the 32-bit
pattern of `m`. -/
theorem writeMark_readMark_roundtrip (mem : Mem) (buf : View) (k B : Nat) (m : Int)
    (hk : k ≤ 30) (_hB1 : 1 ≤ B) (hB8 : B ≤ 8) :
    ∃ mem', WriteMark mem buf m (2 ^ k) B = Except.ok mem' ∧
      ReadMark mem' buf (2 ^ k) B = Except.ok (toUInt32 m &&& (2 ^ B - 1)) := by
  have hs := getMarkingWord_shift_le buf.data (2 ^ k) B
  refine ⟨_, writeMark_eq mem buf k B m hk hB8, ?_⟩
  rw [readMark_eq _ buf k B hk hB8, load64_store64_same]
  have hw : load64 mem (GetMarkingWord buf.data (2 ^ k) B).1 < 2 ^ 64 := by
    have := load64_lt mem (GetMarkingWord buf.data (2 ^ k) B).1
    norm_num
    exact this
  have hlt := markWord_lt (load64 mem (GetMarkingWord buf.data (2 ^ k) B).1) (toUInt32 m) B
    (GetMarkingWord buf.data (2 ^ k) B).2 hw
  have h64 : (18446744073709551616 : Nat) = 2 ^ 64 := by norm_num
  rw [h64, Nat.mod_eq_of_lt hlt, markWord_readback _ _ _ _ hB8 hs]

theorem writeMark_readMark_roundtrip_witness :
    ∃ mem', WriteMark (fun _ => 0) ⟨4160, 8⟩ 5 (2 ^ 12) (2 : Nat) = Except.ok mem' ∧
      ReadMark mem' ⟨4160, 8⟩ (2 ^ 12) (2 : Nat) = Except.ok (toUInt32 5 &&& (2 ^ 2 - 1)) :=
  writeMark_readMark_roundtrip (fun _ => 0) ⟨4160, 8⟩ 12 2 5 (by decide) (by decide) (by decide)

/-- C2, at the failing input. Page size 4096, one bit per object, object at
address 4672 (the page is `[4096, 8192)`, its objects start at 4160): the mark
word starts at 4160 and ends at 4168, past the end of the bitmap, and is the
first object slot of the page; `WriteMark` stores there. -/
theorem getMarkingWord_leaves_bitmap :
    bitfieldBase 4672 4096 = 4096 ∧
    bitfieldSize 4096 1 = 64 ∧
    pageStart 4672 4096 1 = 4160 ∧
    GetMarkingWord 4672 4096 1 = (4160, 0) ∧
    ¬ (4160 + 8 ≤ pageStart 4672 4096 1) ∧
    WriteMark (fun _ => 0) ⟨4672, 8⟩ 1 4096 1 = Except.ok (store64 (fun _ => 0) 4160 1) :=
  ⟨rfl, rfl, rfl, rfl, by decide, rfl⟩

/-- C3, as amended. `WriteMark` does not truncate the mark: it clears the `B`
bits at `shift` and ors in `(uint32_t)m << shift`. Every byte outside the mark
word keeps its value. When `m` fits in `B` bits the word is the one the claim
gives, every bit outside `[shift, shift + B)` keeps its value, and `ReadMark` at
any position that does not overlap (the same word with a disjoint bit range, or
a word sharing no byte with the written one) returns what it returned before. -/
theorem writeMark_frame (mem : Mem) (buf : View) (k B : Nat) (m : Int)
    (buf2 : View) (k2 B2 : Nat)
    (hk : k ≤ 30) (_hB1 : 1 ≤ B) (hB8 : B ≤ 8)
    (hk2 : k2 ≤ 30) (_hB21 : 1 ≤ B2) (hB28 : B2 ≤ 8) :
    ∃ mem', WriteMark mem buf m (2 ^ k) B = Except.ok mem' ∧
      load64 mem' (GetMarkingWord buf.data (2 ^ k) B).1
        = (load64 mem (GetMarkingWord buf.data (2 ^ k) B).1
            &&& notUInt64 ((2 ^ B - 1) <<< (GetMarkingWord buf.data (2 ^ k) B).2))
          ||| (toUInt32 m <<< (GetMarkingWord buf.data (2 ^ k) B).2) % 4294967296 ∧
      (∀ x, (∀ i, i < 8 → x ≠ byteAddr (GetMarkingWord buf.data (2 ^ k) B).1 i) →
        mem' x = mem x) ∧
      (toUInt32 m < 2 ^ B →
        load64 mem' (GetMarkingWord buf.data (2 ^ k) B).1
          = (load64 mem (GetMarkingWord buf.data (2 ^ k) B).1
              &&& notUInt64 ((2 ^ B - 1) <<< (GetMarkingWord buf.data (2 ^ k) B).2))
            ||| (toUInt32 m &&& (2 ^ B - 1)) <<< (GetMarkingWord buf.data (2 ^ k) B).2 ∧
        (∀ j, j < (GetMarkingWord buf.data (2 ^ k) B).2
              ∨ (GetMarkingWord buf.data (2 ^ k) B).2 + B ≤ j →
          (load64 mem' (GetMarkingWord buf.data (2 ^ k) B).1).testBit j
            = (load64 mem (GetMarkingWord buf.data (2 ^ k) B).1).testBit j) ∧
        (((GetMarkingWord buf2.data (2 ^ k2) B2).1 = (GetMarkingWord buf.data (2 ^ k) B).1 ∧
            ((GetMarkingWord buf2.data (2 ^ k2) B2).2 + B2 ≤ (GetMarkingWord buf.data (2 ^ k) B).2
              ∨ (GetMarkingWord buf.data (2 ^ k) B).2 + B
                  ≤ (GetMarkingWord buf2.data (2 ^ k2) B2).2))
          ∨ (∀ i j, i < 8 → j < 8 →
              byteAddr (GetMarkingWord buf2.data (2 ^ k2) B2).1 j
                ≠ byteAddr (GetMarkingWord buf.data (2 ^ k) B).1 i) →
          ReadMark mem' buf2 (2 ^ k2) B2 = ReadMark mem buf2 (2 ^ k2) B2)) := by
  have hs := getMarkingWord_shift_le buf.data (2 ^ k) B
  generalize hws : GetMarkingWord buf.data (2 ^ k) B = ws at hs
  have hw : load64 mem ws.1 < 2 ^ 64 := by
    have := load64_lt mem ws.1
    norm_num
    exact this
  have h64 : (18446744073709551616 : Nat) = 2 ^ 64 := by norm_num
  have hword : load64 (store64 mem ws.1
      ((load64 mem ws.1 &&& (2 ^ 64 - (((2 ^ B - 1) <<< ws.2) + 1)))
        ||| (toUInt32 m <<< ws.2) % 4294967296)) ws.1
      = (load64 mem ws.1 &&& (2 ^ 64 - (((2 ^ B - 1) <<< ws.2) + 1)))
        ||| (toUInt32 m <<< ws.2) % 4294967296 := by
    rw [load64_store64_same, h64, Nat.mod_eq_of_lt (markWord_lt _ _ _ _ hw)]
  refine ⟨_, (by rw [writeMark_eq mem buf k B m hk hB8, hws]), ?_, ?_, ?_⟩
  · rw [hword, notUInt64_shifted_mask B _ hB8 hs]
  · intro x hx
    exact store64_other mem _ _ x hx
  · intro hfit
    refine ⟨?_, ?_, ?_⟩
    · rw [hword, notUInt64_shifted_mask B _ hB8 hs, markWord_fits _ B _ hfit hB8 hs]
    · intro j hj
      rw [hword]
      exact markWord_other_bits _ _ B _ j hB8 hs hw hfit hj
    · intro hdis
      rw [readMark_eq _ buf2 k2 B2 hk2 hB28, readMark_eq _ buf2 k2 B2 hk2 hB28]
      rcases hdis with ⟨hsame, hbits⟩ | hsep
      · rw [hsame, hword, markWord_read_other _ _ B _ B2 _ hB8 hs hw hfit hbits]
      · rw [load64_store64_disjoint _ _ _ _ hsep]

theorem writeMark_frame_witness :
    ∃ mem', WriteMark (fun _ => 0) ⟨4160, 8⟩ 1 (2 ^ 12) (1 : Nat) = Except.ok mem' ∧
      load64 mem' 4096 = 1 ∧
      ReadMark mem' ⟨4168, 8⟩ (2 ^ 12) (1 : Nat)
        = ReadMark (fun _ => 0) ⟨4168, 8⟩ (2 ^ 12) (1 : Nat) := by
  obtain ⟨mem', h1, _, _, h4⟩ := writeMark_frame (fun _ => 0) ⟨4160, 8⟩ 12 1 1 ⟨4168, 8⟩ 12 1
    (by decide) (by decide) (by decide) (by decide) (by decide) (by decide)
  obtain ⟨h5, _, h7⟩ := h4 (by decide)
  exact ⟨mem', h1, h5, h7 (Or.inl ⟨rfl, Or.inr (by decide)⟩)⟩

/-- C3, counterexample. Page size 4096, one bit per object, mark value 3 for the
first object of the page (address 4160, mark word 4096, shift 0) in a zeroed
memory: the mark word becomes 3 where the claim gives 1, and the mark of the
next object (address 4168, shift 1), which was 0, reads back as 1. -/
theorem writeMark_truncation_counterexample :
    GetMarkingWord 4160 (2 ^ 12) 1 = (4096, 0) ∧
    GetMarkingWord 4168 (2 ^ 12) 1 = (4096, 1) ∧
    WriteMark (fun _ => 0) ⟨4160, 8⟩ 3 (2 ^ 12) 1
      = Except.ok (store64 (fun _ => 0) 4096 3) ∧
    load64 (store64 (fun _ => 0) 4096 3) 4096 = 3 ∧
    (load64 (fun _ => 0) 4096 &&& notUInt64 ((2 ^ 1 - 1) <<< 0))
      ||| ((3 &&& (2 ^ 1 - 1)) <<< 0) = 1 ∧
    load64 (store64 (fun _ => 0) 4096 3) 4096
      ≠ (load64 (fun _ => 0) 4096 &&& notUInt64 ((2 ^ 1 - 1) <<< 0))
          ||| ((3 &&& (2 ^ 1 - 1)) <<< 0) ∧
    ReadMark (fun _ => 0) ⟨4168, 8⟩ (2 ^ 12) 1 = Except.ok 0 ∧
    ReadMark (store64 (fun _ => 0) 4096 3) ⟨4168, 8⟩ (2 ^ 12) 1 = Except.ok 1 :=
  ⟨rfl, rfl, rfl, rfl, rfl, by decide, rfl, rfl⟩

/-- C4. Small-integer round trip: for every integer `n` with `0 ≤ n ≤ kSmiMask`,
every memory, destination buffer and offset, `WriteTagged` succeeds and
`ReadTagged` at the same place then returns the number `n`. -/
theorem writeTagged_readTagged_smi (mem : Mem) (dst : View) (off n : Int)
    (h0 : 0 ≤ n) (h1 : n ≤ kSmiMask) :
    ∃ mem', WriteTagged mem dst (Value.number n) off = Except.ok mem' ∧
      ReadTagged mem' dst off = Except.ok (Value.number n) := by
  obtain ⟨k, rfl⟩ := Int.eq_ofNat_of_zero_le h0
  have hk : k < 2147483648 := by
    have : kSmiMask = 2147483647 := rfl
    omega
  refine ⟨_, writeTagged_number_ok mem dst off k hk, ?_⟩
  have hl : load64 (store64 mem (dst.data + toUInt32 (Int32Value off)) (2 * k))
      (dst.data + toUInt32 (Int32Value off)) = 2 * k := by
    rw [load64_store64_same]; omega
  rw [readTagged_even _ _ _ (by rw [hl]; omega), hl]
  have h2 : (2 * k) >>> 1 = k := by rw [Nat.shiftRight_eq_div_pow]; omega
  rw [h2, toUInt32_natCast _ (by omega), toInt32_of_range _ (by omega) (by omega)]

theorem writeTagged_readTagged_smi_witness :
    ∃ mem', WriteTagged (fun _ => 0) ⟨4096, 8⟩ (Value.number 2147483647) 16 = Except.ok mem' ∧
      ReadTagged mem' ⟨4096, 8⟩ 16 = Except.ok (Value.number 2147483647) :=
  writeTagged_readTagged_smi (fun _ => 0) ⟨4096, 8⟩ 16 2147483647 (by decide) (by decide)

/-- C5. Pointer round trip: for every buffer `v` whose base address (a 64-bit
address) has its low bit clear, `WriteTagged` succeeds and stores
`address(v) | 1`, and `ReadTagged` at the same place then returns a buffer, not
a number, whose base address is `address(v)`. -/
theorem writeTagged_readTagged_pointer (mem : Mem) (dst v : View) (off : Int)
    (hv : v.address < 2 ^ 64) (htag : v.address % 2 = 0) :
    ∃ mem', WriteTagged mem dst (Value.buffer v) off = Except.ok mem' ∧
      load64 mem' (dst.data + toUInt32 (Int32Value off)) = v.address ||| 1 ∧
      ∃ r, ReadTagged mem' dst off = Except.ok (Value.buffer r) ∧ r.address = v.address := by
  have hd : v.data = v.address := Nat.mod_eq_of_lt (by simpa using hv)
  have he : v.data % 2 = 0 := by rw [hd]; exact htag
  have hl : load64 (store64 mem (dst.data + toUInt32 (Int32Value off)) (v.data + 1))
      (dst.data + toUInt32 (Int32Value off)) = v.address + 1 := by
    rw [load64_store64_same, hd]
    have : v.address < 18446744073709551616 := by simpa using hv
    omega
  refine ⟨_, writeTagged_buffer_ok mem dst v off he, ?_, ?_⟩
  · rw [hl, or_one_of_even _ htag]
  · refine ⟨_, readTagged_odd _ _ _ (by rw [hl]; omega), ?_⟩
    simp [hl]

theorem writeTagged_readTagged_pointer_witness :
    ∃ mem', WriteTagged (fun _ => 0) ⟨4096, 8⟩ (Value.buffer ⟨8192, 32⟩) 0 = Except.ok mem' ∧
      load64 mem' (View.data ⟨4096, 8⟩ + toUInt32 (Int32Value 0)) = 8192 ||| 1 ∧
      ∃ r, ReadTagged mem' ⟨4096, 8⟩ 0 = Except.ok (Value.buffer r) ∧ r.address = 8192 :=
  writeTagged_readTagged_pointer (fun _ => 0) ⟨4096, 8⟩ ⟨8192, 32⟩ 0 (by decide) (by decide)

/-- C6, as amended. For every 32-bit integer `v`, `WriteTagged` with the number
`v` succeeds if and only if `0 ≤ v ≤ kSmiMask`; on success the word stored at the
offset is `v` shifted left by one; otherwise the call fails with
"Too big number to be tagged". -/
theorem writeTagged_number_range (mem : Mem) (dst : View) (off v : Int)
    (hlo : -2147483648 ≤ v) (hhi : v ≤ 2147483647) :
    ((∃ mem', WriteTagged mem dst (Value.number v) off = Except.ok mem')
        ↔ (0 ≤ v ∧ v ≤ kSmiMask)) ∧
    (∀ mem', WriteTagged mem dst (Value.number v) off = Except.ok mem' →
        load64 mem' (dst.data + toUInt32 (Int32Value off)) = toUInt64 (v * 2 ^ kTagShift)) ∧
    (¬ (0 ≤ v ∧ v ≤ kSmiMask) →
        WriteTagged mem dst (Value.number v) off
          = Except.error "Too big number to be tagged") := by
  have hmask : kSmiMask = 2147483647 := rfl
  have hshift : kTagShift = 1 := rfl
  by_cases hv : 0 ≤ v
  · obtain ⟨n, rfl⟩ := Int.eq_ofNat_of_zero_le hv
    have hn : n < 2147483648 := by omega
    have hok := writeTagged_number_ok mem dst off n hn
    refine ⟨⟨fun _ => ⟨by omega, by omega⟩, fun _ => ⟨_, hok⟩⟩, ?_, fun h => ?_⟩
    · intro mem' h
      rw [hok] at h
      injection h with h
      subst h
      rw [load64_store64_same, hshift]
      unfold toUInt64
      omega
    · exact absurd ⟨hv, by omega⟩ h
  · have herr := writeTagged_number_error mem dst off v hlo (by omega)
    refine ⟨⟨fun ⟨mem', h⟩ => ?_, fun h => absurd h.1 hv⟩, ?_, fun _ => herr⟩
    · rw [herr] at h
      exact Except.noConfusion h
    · intro mem' h
      rw [herr] at h
      exact Except.noConfusion h

theorem writeTagged_number_range_witness :
    ((∃ mem', WriteTagged (fun _ => 0) ⟨4096, 8⟩ (Value.number 7) 0 = Except.ok mem')
        ↔ ((0 : Int) ≤ 7 ∧ 7 ≤ kSmiMask)) ∧
    (∀ mem', WriteTagged (fun _ => 0) ⟨4096, 8⟩ (Value.number 7) 0 = Except.ok mem' →
        load64 mem' (View.data ⟨4096, 8⟩ + toUInt32 (Int32Value 0))
          = toUInt64 (7 * 2 ^ kTagShift)) ∧
    (¬ ((0 : Int) ≤ 7 ∧ 7 ≤ kSmiMask) →
        WriteTagged (fun _ => 0) ⟨4096, 8⟩ (Value.number 7) 0
          = Except.error "Too big number to be tagged") :=
  writeTagged_number_range (fun _ => 0) ⟨4096, 8⟩ 0 7 (by decide) (by decide)

/-- C6, counterexample. The magnitude of `-1` is below `kSmiMask`, yet
`WriteTagged` refuses the number `-1`. -/
theorem writeTagged_negative_counterexample :
    ((-1 : Int).natAbs : Int) ≤ kSmiMask ∧
    WriteTagged (fun _ => 0) ⟨4096, 8⟩ (Value.number (-1)) 0
      = Except.error "Too big number to be tagged" :=
  ⟨by decide, rfl⟩

/-- C7, at the failing input. The word `2^33` has its tag bit clear and
`2^33 >> 1 = 2^32` exceeds `kSmiMask`, yet `ReadTagged` returns the number 0: the
mask `(kSmiMask << 1) | kTagMask` of line 78 is the `int` -1, which becomes the
all-ones `uint64_t`, so that the test never fails. -/
theorem readTagged_wide_word_accepted :
    toUInt64 (orInt32 (shlInt32 kSmiMask 1) kTagMask) = 18446744073709551615 ∧
    (8589934592 : Nat) &&& toUInt64 kTagMask = toUInt64 kTagSmi ∧
    ¬ (((8589934592 >>> 1 : Nat) : Int) ≤ kSmiMask) ∧
    ReadTagged (store64 (fun _ => 0) 4096 8589934592) ⟨4096, 8⟩ 0
      = Except.ok (Value.number 0) :=
  ⟨rfl, rfl, by decide, rfl⟩

/-- C8, at the failing input. Page size 0 is not a power of two, yet the test of
lines 203 and 236 lets it through: `ReadMark` returns a mark and `WriteMark`
stores one (with the page base computed as address 0). -/
theorem zero_page_size_accepted :
    pageSizeRejected (toUInt64 (Int32Value 0)) = false ∧
    ReadMark (fun _ => 0) ⟨4160, 8⟩ 0 1 = Except.ok 0 ∧
    GetMarkingWord 4160 0 1 = (520, 0) ∧
    WriteMark (fun _ => 0) ⟨4160, 8⟩ 1 0 1 = Except.ok (store64 (fun _ => 0) 520 1) :=
  ⟨rfl, rfl, rfl, rfl⟩

/-- C9. Successful bump: when the stored `pos` (an `intptr_t`) carries the pointer
tag, `0 ≤ size` and `pos + size ≤ limit`, and the two cells share no byte,
`PointerAdd` returns a buffer of length `size` at address `pos - 1`, leaves in
the `pos` cell the 64-bit value of `pos + roundUp size kAlign` (which is that
sum itself as long as it fits an `intptr_t`), and the `limit` cell keeps its
value. The outcome does not depend on whether the `assert` is compiled in. -/
theorem pointerAdd_success (assertsEnabled : Bool) (mem : Mem) (posBuf limitBuf : View)
    (size : Int) (hsize0 : 0 ≤ size) (hsize1 : size ≤ 2147483647)
    (htag : load64 mem posBuf.data % 2 = 1)
    (hfit : toInt64 (load64 mem posBuf.data) + size ≤ toInt64 (load64 mem limitBuf.data))
    (hsep : ∀ i j, i < 8 → j < 8 → byteAddr limitBuf.data j ≠ byteAddr posBuf.data i) :
    ∃ mem', PointerAdd assertsEnabled mem posBuf limitBuf size
        = (BumpResult.allocated ⟨toUInt64 (toInt64 (load64 mem posBuf.data) - 1), size.toNat⟩,
            mem') ∧
      toInt64 (load64 mem' posBuf.data)
        = toInt64 (toInt64 (load64 mem posBuf.data) + roundUp size kAlign) ∧
      (toInt64 (load64 mem posBuf.data) + roundUp size kAlign < 9223372036854775808 →
        toInt64 (load64 mem' posBuf.data)
          = toInt64 (load64 mem posBuf.data) + roundUp size kAlign) ∧
      load64 mem' limitBuf.data = load64 mem limitBuf.data := by
  have hlt := load64_lt mem posBuf.data
  have hpr := toInt64_range (load64 mem posBuf.data)
  have hlr := toInt64_range (load64 mem limitBuf.data)
  have hcmp : ¬ toInt64 (toInt64 (load64 mem posBuf.data) + size)
      > toInt64 (load64 mem limitBuf.data) := by
    rw [toInt64_of_range _ (by omega) (by omega)]
    omega
  have hassert : ¬ (assertsEnabled = true ∧ load64 mem posBuf.data % 2 = 0) := by
    intro h
    omega
  have haddr : load64 mem posBuf.data ^^^ 1
      = toUInt64 (toInt64 (load64 mem posBuf.data) - 1) := by
    rw [xor_one_of_odd _ htag, toUInt64_pred _ hlt (by omega)]
  have hlen : toUInt64 size = size.toNat := toUInt64_of_nonneg size hsize0 (by omega)
  have hround := roundUp_align size hsize0
  have hpos : ∀ z : Int, roundUp size kAlign = z →
      ∀ m2 : Mem, load64 m2 posBuf.data = toUInt64 (toInt64 (load64 mem posBuf.data) + z) →
      toInt64 (load64 m2 posBuf.data)
          = toInt64 (toInt64 (load64 mem posBuf.data) + roundUp size kAlign) ∧
        (toInt64 (load64 mem posBuf.data) + roundUp size kAlign < 9223372036854775808 →
          toInt64 (load64 m2 posBuf.data)
            = toInt64 (load64 mem posBuf.data) + roundUp size kAlign) := by
    intro z hz m2 hm2
    rw [hm2, toInt64_toUInt64, hz]
    refine ⟨rfl, fun hno => toInt64_of_range _ ?_ hno⟩
    have : 0 ≤ roundUp size kAlign := by
      have hA : kAlign = 16 := rfl
      rw [hA]
      unfold roundUp
      omega
    omega
  rw [pointerAdd_unfold assertsEnabled mem posBuf limitBuf size (by omega) hsize1 hcmp hassert,
    haddr, hlen]
  by_cases hmod : Int.tmod size kAlign ≠ 0
  · rw [if_pos hmod] at hround
    rw [if_pos hmod]
    refine ⟨_, rfl, ?_⟩
    have hcell : load64 (store64 (store64 mem posBuf.data
          (toUInt64 (toInt64 (load64 mem posBuf.data) + size))) posBuf.data
          (toUInt64 (toInt64 (toInt64 (load64 mem posBuf.data) + size)
            + (kAlign - Int.tmod size kAlign)))) posBuf.data
        = toUInt64 (toInt64 (load64 mem posBuf.data)
            + (size + (kAlign - Int.tmod size kAlign))) := by
      rw [load64_store64_toUInt64, toUInt64_add_left, Int.add_assoc]
    obtain ⟨h1, h2⟩ := hpos _ hround _ hcell
    refine ⟨h1, h2, ?_⟩
    rw [load64_store64_disjoint _ _ _ _ hsep, load64_store64_disjoint _ _ _ _ hsep]
  · rw [if_neg hmod] at hround
    rw [if_neg hmod]
    refine ⟨_, rfl, ?_⟩
    obtain ⟨h1, h2⟩ := hpos _ hround _ (load64_store64_toUInt64 _ _ _)
    refine ⟨h1, h2, ?_⟩
    rw [load64_store64_disjoint _ _ _ _ hsep]

theorem pointerAdd_success_witness :
    ∃ mem', PointerAdd true (bumpCells 101 116) ⟨1000, 8⟩ ⟨2000, 8⟩ 8
        = (BumpResult.allocated
            ⟨toUInt64 (toInt64 (load64 (bumpCells 101 116) (View.data ⟨1000, 8⟩)) - 1),
              (8 : Int).toNat⟩, mem') ∧
      toInt64 (load64 mem' (View.data ⟨1000, 8⟩))
        = toInt64 (toInt64 (load64 (bumpCells 101 116) (View.data ⟨1000, 8⟩))
            + roundUp 8 kAlign) ∧
      (toInt64 (load64 (bumpCells 101 116) (View.data ⟨1000, 8⟩)) + roundUp 8 kAlign
          < 9223372036854775808 →
        toInt64 (load64 mem' (View.data ⟨1000, 8⟩))
          = toInt64 (load64 (bumpCells 101 116) (View.data ⟨1000, 8⟩)) + roundUp 8 kAlign) ∧
      load64 mem' (View.data ⟨2000, 8⟩) = load64 (bumpCells 101 116) (View.data ⟨2000, 8⟩) :=
  pointerAdd_success true (bumpCells 101 116) ⟨1000, 8⟩ ⟨2000, 8⟩ 8 (by decide) (by decide)
    (by decide) (by decide)
    (by
      intro i j hi hj
      have h1 : View.data ⟨2000, 8⟩ = 2000 := rfl
      have h2 : View.data ⟨1000, 8⟩ = 1000 := rfl
      rw [h1, h2]
      unfold byteAddr
      omega)

/-- C10, as amended. With 101 in the `pos` cell (address 100 carrying the pointer
tag), 116 in the `limit` cell and `size = 8`, `PointerAdd` returns a buffer of
length 8 at address 100 and leaves 117 in the `pos` cell: the cell advances by
`size` rounded up to 16, and keeps its tag. -/
theorem pointerAdd_example (assertsEnabled : Bool) :
    load64 (bumpCells 101 116) 1000 = 101 ∧ load64 (bumpCells 101 116) 2000 = 116 ∧
    (PointerAdd assertsEnabled (bumpCells 101 116) ⟨1000, 8⟩ ⟨2000, 8⟩ 8).1
      = BumpResult.allocated ⟨100, 8⟩ ∧
    load64 (PointerAdd assertsEnabled (bumpCells 101 116) ⟨1000, 8⟩ ⟨2000, 8⟩ 8).2 1000
      = 117 ∧
    load64 (PointerAdd assertsEnabled (bumpCells 101 116) ⟨1000, 8⟩ ⟨2000, 8⟩ 8).2 2000
      = 116 := by
  cases assertsEnabled <;> exact ⟨rfl, rfl, rfl, rfl, rfl⟩

/-- C10, counterexample. With 100 in the `pos` cell, 116 in the `limit` cell and
`size = 8`: with the `assert` compiled in the call aborts on the missing tag;
without it the buffer is at address 101 and the `pos` cell ends at 116. In
neither build is the buffer at address 100 with 112 left in the `pos` cell. -/
theorem pointerAdd_example_counterexample :
    load64 (bumpCells 100 116) 1000 = 100 ∧ load64 (bumpCells 100 116) 2000 = 116 ∧
    (PointerAdd true (bumpCells 100 116) ⟨1000, 8⟩ ⟨2000, 8⟩ 8).1
      = BumpResult.assertionFailed ∧
    (PointerAdd false (bumpCells 100 116) ⟨1000, 8⟩ ⟨2000, 8⟩ 8).1
      = BumpResult.allocated ⟨101, 8⟩ ∧
    load64 (PointerAdd false (bumpCells 100 116) ⟨1000, 8⟩ ⟨2000, 8⟩ 8).2 1000 = 116 ∧
    ∀ assertsEnabled : Bool,
      ¬ ((PointerAdd assertsEnabled (bumpCells 100 116) ⟨1000, 8⟩ ⟨2000, 8⟩ 8).1
            = BumpResult.allocated ⟨100, 8⟩ ∧
          load64 (PointerAdd assertsEnabled (bumpCells 100 116) ⟨1000, 8⟩ ⟨2000, 8⟩ 8).2 1000
            = 112) := by
  refine ⟨rfl, rfl, rfl, rfl, rfl, ?_⟩
  intro b
  cases b <;> decide

/-! ## Interior pointers, identity and native calls: lemmas -/

theorem subUInt64_add_cancel (a k : Nat) (ha : a < 18446744073709551616) :
    subUInt64 ((a + k) % 18446744073709551616) k = a := by
  unfold subUInt64
  omega

theorem toUInt64_add_natCast (a : Nat) (k : Int) :
    (a % 18446744073709551616 + toUInt64 k) % 18446744073709551616
      = toUInt64 ((a : Int) + k) := by
  unfold toUInt64
  omega

theorem tagArgs_number (n : Int) :
    tagArgs [Arg.number n] = Except.ok [toInt64 (Int32Value n * 2 ^ kTagShift)] := rfl

theorem tagArgs_buffer_ok (v : View) (h : v.data % 2 = 0) :
    tagArgs [Arg.buffer v] = Except.ok [toInt64 ((v.data + 1 : Nat) : Int)] := by
  have hlt : v.data < 18446744073709551616 := Nat.mod_lt _ (by omega)
  have h1 : toUInt64 (toInt64 (v.data : Int)) = v.data := by
    rw [toUInt64_toInt64, toUInt64_natCast _ hlt]
  simp only [tagArgs, h1, toUInt64_kTagMask, toUInt64_kTagPointer, Nat.and_one_is_mod, h,
    or_one_of_even _ h]
  simp

/-- C12. Interior round trip: for every source buffer `v` (at a 64-bit address),
every interior offset `k`, every memory, destination and offset, `WriteInterior`
stores `address(v) + k` modulo `2^64`, with no tag set or tested, and
`ReadInterior` with the same offsets then returns a buffer at `address(v)`. -/
theorem writeInterior_readInterior (mem : Mem) (dst v : View) (off k : Int)
    (hv : v.address < 2 ^ 64) :
    load64 (WriteInterior mem dst v off k) (dst.data + toUInt32 (Int32Value off))
        = toUInt64 ((v.address : Int) + Int32Value k) ∧
      (ReadInterior (WriteInterior mem dst v off k) dst off k).address = v.address := by
  have hv' : v.address < 18446744073709551616 := by simpa using hv
  have hd : v.data = v.address := Nat.mod_eq_of_lt hv'
  have hstore : load64 (WriteInterior mem dst v off k) (dst.data + toUInt32 (Int32Value off))
      = (v.address + toUInt64 (Int32Value k)) % 18446744073709551616 := by
    unfold WriteInterior
    simp only [hd]
    rw [load64_store64_same, Nat.mod_mod]
  refine ⟨?_, ?_⟩
  · rw [hstore, ← toUInt64_add_natCast, Nat.mod_eq_of_lt hv']
  · unfold ReadInterior
    simp only [hstore]
    exact subUInt64_add_cancel _ _ hv'

theorem writeInterior_readInterior_witness :
    load64 (WriteInterior (fun _ => 0) ⟨64, 8⟩ ⟨4096, 8⟩ 8 (-24))
        (View.data ⟨64, 8⟩ + toUInt32 (Int32Value 8))
        = toUInt64 ((4096 : Int) + Int32Value (-24)) ∧
      (ReadInterior (WriteInterior (fun _ => 0) ⟨64, 8⟩ ⟨4096, 8⟩ 8 (-24)) ⟨64, 8⟩ 8 (-24)).address
        = 4096 :=
  writeInterior_readInterior (fun _ => 0) ⟨64, 8⟩ ⟨4096, 8⟩ 8 (-24) (by decide)

/-- C14. `WriteTagged` with a buffer `v` (at a 64-bit address) fails with
"Unaligned src buffer" if and only if the low bit of `address(v)` is set; when
that bit is clear the call succeeds and the word stored is `address(v) | 1`. -/
theorem writeTagged_pointer_alignment (mem : Mem) (dst v : View) (off : Int)
    (hv : v.address < 2 ^ 64) :
    (WriteTagged mem dst (Value.buffer v) off = Except.error "Unaligned src buffer"
        ↔ v.address % 2 = 1) ∧
    (v.address % 2 = 0 →
      ∃ mem', WriteTagged mem dst (Value.buffer v) off = Except.ok mem' ∧
        load64 mem' (dst.data + toUInt32 (Int32Value off)) = v.address ||| 1) := by
  have hv' : v.address < 18446744073709551616 := by simpa using hv
  have hd : v.data = v.address := Nat.mod_eq_of_lt hv'
  refine ⟨⟨fun h => ?_, fun h => writeTagged_buffer_error mem dst v off (by rw [hd]; exact h)⟩,
    fun h => ?_⟩
  · rcases Nat.mod_two_eq_zero_or_one v.address with h0 | h1
    · rw [writeTagged_buffer_ok mem dst v off (by rw [hd]; exact h0)] at h
      exact Except.noConfusion h
    · exact h1
  · refine ⟨_, writeTagged_buffer_ok mem dst v off (by rw [hd]; exact h), ?_⟩
    rw [load64_store64_same, hd, or_one_of_even _ h]
    omega

theorem writeTagged_pointer_alignment_witness :
    (WriteTagged (fun _ => 0) ⟨64, 8⟩ (Value.buffer ⟨4096, 16⟩) 0
        = Except.error "Unaligned src buffer" ↔ 4096 % 2 = 1) ∧
    (4096 % 2 = 0 →
      ∃ mem', WriteTagged (fun _ => 0) ⟨64, 8⟩ (Value.buffer ⟨4096, 16⟩) 0 = Except.ok mem' ∧
        load64 mem' (View.data ⟨64, 8⟩ + toUInt32 (Int32Value 0)) = 4096 ||| 1) :=
  writeTagged_pointer_alignment (fun _ => 0) ⟨64, 8⟩ ⟨4096, 16⟩ 0 (by decide)

/-- C16. `IsSame` looks at base addresses only: for buffers at 64-bit addresses,
`IsSame(a, b)` is true if and only if `address(a) = address(b)`, whatever the
lengths; `IsSame(v, v)` is true for every `v`; and the call leaves the memory
as it was. -/
theorem isSame_iff (mem : Mem) (a b v : View)
    (ha : a.address < 2 ^ 64) (hb : b.address < 2 ^ 64) :
    ((IsSame mem a b).1 = true ↔ a.address = b.address) ∧
    (IsSame mem v v).1 = true ∧
    (IsSame mem a b).2 = mem := by
  have ha' : a.address < 18446744073709551616 := by simpa using ha
  have hb' : b.address < 18446744073709551616 := by simpa using hb
  have hda : a.data = a.address := Nat.mod_eq_of_lt ha'
  have hdb : b.data = b.address := Nat.mod_eq_of_lt hb'
  refine ⟨?_, ?_, rfl⟩
  · simp [IsSame, hda, hdb]
  · simp [IsSame]

theorem isSame_iff_witness :
    ((IsSame (fun _ => 0) ⟨4096, 8⟩ ⟨4096, 64⟩).1 = true ↔ 4096 = 4096) ∧
    (IsSame (fun _ => 0) ⟨4104, 8⟩ ⟨4104, 8⟩).1 = true ∧
    (IsSame (fun _ => 0) ⟨4096, 8⟩ ⟨4096, 64⟩).2 = (fun _ => 0) :=
  isSame_iff (fun _ => 0) ⟨4096, 8⟩ ⟨4096, 64⟩ ⟨4104, 8⟩ (by decide) (by decide)

theorem call_of_tagArgs_ok (exec : Nat → List Int → Mem → Int × Mem) (mem : Mem) (code : View)
    (args : List Arg) (pargs : List Int) (hlen : args.length ≤ 7)
    (h : tagArgs args = Except.ok pargs) :
    Call exec mem code args
      = if toUInt64 (toInt64 (exec code.data pargs mem).1) % 2 = 1 then
          ⟨Except.ok (Value.buffer
            ⟨toUInt64 (toInt64 (exec code.data pargs mem).1) ^^^ 1, kUnknownLength⟩),
            (exec code.data pargs mem).2, true⟩
        else
          ⟨Except.ok (Value.number (toInt32 (toInt64 (exec code.data pargs mem).1 / 2))),
            (exec code.data pargs mem).2, true⟩ := by
  unfold Call
  rw [if_neg (by omega), h]
  simp only [toUInt64_kTagMask, toUInt64_kTagPointer, Nat.and_one_is_mod]

theorem call_error (exec : Nat → List Int → Mem → Int × Mem) (mem : Mem) (code : View)
    (args : List Arg) (e : String)
    (h : (Call exec mem code args).result = Except.error e) :
    (Call exec mem code args).mem = mem ∧ (Call exec mem code args).invoked = false := by
  unfold Call at h ⊢
  by_cases hlen : args.length > 7
  · rw [if_pos hlen]
    exact ⟨rfl, rfl⟩
  · rw [if_neg hlen] at h ⊢
    cases hargs : tagArgs args with
    | error e' => exact ⟨rfl, rfl⟩
    | ok pargs =>
      rw [hargs] at h
      simp only at h
      split at h <;> exact Except.noConfusion h

theorem runWriteTagged_error (mem : Mem) (dst : View) (src : Value) (off : Int) (e : String)
    (h : (runWriteTagged mem dst src off).1 = Except.error e) :
    (runWriteTagged mem dst src off).2 = mem := by
  unfold runWriteTagged at h ⊢
  cases src with
  | buffer s =>
    simp only at h ⊢
    split
    · rfl
    · rename_i hc
      rw [if_neg hc] at h
      exact Except.noConfusion h
  | number n =>
    simp only at h ⊢
    split
    · rfl
    · rename_i hc
      rw [if_neg hc] at h
      exact Except.noConfusion h

theorem runWriteMark_error (mem : Mem) (buf : View) (m P B : Int) (e : String)
    (h : (runWriteMark mem buf m P B).1 = Except.error e) :
    (runWriteMark mem buf m P B).2 = mem := by
  unfold runWriteMark at h ⊢
  simp only at h ⊢
  split
  · rfl
  · rename_i hc
    rw [if_neg hc] at h
    exact Except.noConfusion h

/-- The memory-passing `runWriteTagged` and `WriteTagged` are the same function. -/
theorem runWriteTagged_agrees (mem : Mem) (dst : View) (src : Value) (off : Int) :
    WriteTagged mem dst src off
      = match (runWriteTagged mem dst src off).1 with
        | Except.ok _ => Except.ok (runWriteTagged mem dst src off).2
        | Except.error e => Except.error e := by
  unfold WriteTagged runWriteTagged
  cases src with
  | buffer s => simp only; split <;> rfl
  | number n => simp only; split <;> rfl

/-- The memory-passing `runWriteMark` and `WriteMark` are the same function. -/
theorem runWriteMark_agrees (mem : Mem) (buf : View) (m P B : Int) :
    WriteMark mem buf m P B
      = match (runWriteMark mem buf m P B).1 with
        | Except.ok _ => Except.ok (runWriteMark mem buf m P B).2
        | Except.error e => Except.error e := by
  unfold WriteMark runWriteMark
  simp only
  split <;> rfl

theorem identityCode_word (a : Nat) (w : Int) (ws : List Int) (mem : Mem) :
    (identityCode a (w :: ws) mem).1 = w := rfl

/-- C13. Native-call identity round trip: with native code that returns its one
argument word, `Call` on a 32-bit integer `n` (negative or not, with no range
test) returns the number `n`, and `Call` on a buffer `v` whose 64-bit address
has its low bit clear returns a buffer at `address(v)`. -/
theorem call_identity_roundtrip (mem : Mem) (code v : View) (n : Int)
    (hlo : -2147483648 ≤ n) (hhi : n ≤ 2147483647)
    (hv : v.address < 2 ^ 64) (htag : v.address % 2 = 0) :
    (Call identityCode mem code [Arg.number n]).result = Except.ok (Value.number n) ∧
    ∃ r, (Call identityCode mem code [Arg.buffer v]).result = Except.ok (Value.buffer r) ∧
      r.address = v.address := by
  have hv' : v.address < 18446744073709551616 := by simpa using hv
  have hd : v.data = v.address := Nat.mod_eq_of_lt hv'
  have hshift : (2 : Int) ^ kTagShift = 2 := rfl
  constructor
  · have hlen : [Arg.number n].length ≤ 7 := by simp
    rw [call_of_tagArgs_ok identityCode mem code [Arg.number n] _ hlen (tagArgs_number n)]
    have hn : Int32Value n = n := toInt32_of_range n hlo (by omega)
    have hw : toInt64 (toInt64 (Int32Value n * 2 ^ kTagShift)) = n * 2 := by
      rw [hn, hshift, toInt64_of_range (n * 2) (by omega) (by omega),
        toInt64_of_range (n * 2) (by omega) (by omega)]
    have heven : ¬ toUInt64 (n * 2) % 2 = 1 := by
      unfold toUInt64
      omega
    rw [identityCode_word, hw, if_neg heven]
    have hhalf : n * 2 / 2 = n := by omega
    rw [hhalf, toInt32_of_range n hlo (by omega)]
  · have hlen : [Arg.buffer v].length ≤ 7 := by simp
    rw [call_of_tagArgs_ok identityCode mem code [Arg.buffer v] _ hlen
      (tagArgs_buffer_ok v (by rw [hd]; exact htag))]
    have hlt : v.data + 1 < 18446744073709551616 := by omega
    have hw : toUInt64 (toInt64 (toInt64 ((v.data + 1 : Nat) : Int))) = v.address + 1 := by
      rw [toUInt64_toInt64, toUInt64_toInt64, toUInt64_natCast (v.data + 1) hlt, hd]
    have hodd : (v.address + 1) % 2 = 1 := by omega
    rw [identityCode_word, hw, if_pos hodd]
    refine ⟨_, rfl, ?_⟩
    show (v.address + 1) ^^^ 1 = v.address
    rw [xor_one_of_odd _ hodd]
    omega

theorem call_identity_roundtrip_witness :
    (Call identityCode (fun _ => 0) ⟨64, 8⟩ [Arg.number (-5)]).result
        = Except.ok (Value.number (-5)) ∧
    ∃ r, (Call identityCode (fun _ => 0) ⟨64, 8⟩ [Arg.buffer ⟨4096, 16⟩]).result
        = Except.ok (Value.buffer r) ∧ r.address = 4096 :=
  call_identity_roundtrip (fun _ => 0) ⟨64, 8⟩ ⟨4096, 16⟩ (-5) (by decide) (by decide)
    (by decide) (by decide)

/-- C15. Error atomicity: whenever `WriteTagged` fails (unaligned pointer or
number out of range), `WriteMark` fails (page size refused) or `Call` fails
(more than 7 arguments, an unaligned pointer argument, or an argument of
another kind), the memory the call leaves is the memory it was given, and for
`Call` the native code has not been entered, whatever that code is. -/
theorem error_atomicity (mem : Mem) (dst buf code : View) (src : Value)
    (off mark pageSize bitCount : Int)
    (exec : Nat → List Int → Mem → Int × Mem) (args : List Arg) :
    (∀ e, (runWriteTagged mem dst src off).1 = Except.error e →
      (runWriteTagged mem dst src off).2 = mem) ∧
    (∀ e, (runWriteMark mem buf mark pageSize bitCount).1 = Except.error e →
      (runWriteMark mem buf mark pageSize bitCount).2 = mem) ∧
    (∀ e, (Call exec mem code args).result = Except.error e →
      (Call exec mem code args).mem = mem ∧ (Call exec mem code args).invoked = false) :=
  ⟨fun e h => runWriteTagged_error mem dst src off e h,
    fun e h => runWriteMark_error mem buf mark pageSize bitCount e h,
    fun e h => call_error exec mem code args e h⟩

theorem error_atomicity_witness :
    (runWriteTagged (fun _ => 0) ⟨64, 8⟩ (Value.buffer ⟨4097, 8⟩) 0).2 = (fun _ => 0) ∧
    (runWriteMark (fun _ => 0) ⟨4160, 8⟩ 1 100 1).2 = (fun _ => 0) ∧
    ((Call (fun _ _ _ => (0, fun _ => 1)) (fun _ => 0) ⟨64, 8⟩
        [Arg.number 1, Arg.buffer ⟨4097, 8⟩]).mem = (fun _ => 0) ∧
      (Call (fun _ _ _ => (0, fun _ => 1)) (fun _ => 0) ⟨64, 8⟩
        [Arg.number 1, Arg.buffer ⟨4097, 8⟩]).invoked = false) :=
  have h := error_atomicity (fun _ => 0) ⟨64, 8⟩ ⟨4160, 8⟩ ⟨64, 8⟩ (Value.buffer ⟨4097, 8⟩)
    0 1 100 1 (fun _ _ _ => (0, fun _ => 1)) [Arg.number 1, Arg.buffer ⟨4097, 8⟩]
  ⟨h.1 "Unaligned src buffer" rfl, h.2.1 "Page size is not a power of two" rfl,
    h.2.2 "Unaligned pointer is given" rfl⟩

/-! ## Bump allocation: the three ways out of `PointerAdd` -/

theorem pointerAdd_noAllocation (assertsEnabled : Bool) (mem : Mem) (posBuf limitBuf : View)
    (size : Int)
    (hcmp : toInt64 (toInt64 (load64 mem posBuf.data) + Int32Value size)
      > toInt64 (load64 mem limitBuf.data)) :
    PointerAdd assertsEnabled mem posBuf limitBuf size = (BumpResult.noAllocation, mem) := by
  unfold PointerAdd
  simp only [if_pos hcmp]

theorem toUInt64_toInt64_load64 (mem : Mem) (a : Nat) :
    toUInt64 (toInt64 (load64 mem a)) = load64 mem a := by
  rw [toUInt64_toInt64, toUInt64_natCast _ (load64_lt mem a)]

theorem pointerAdd_assertionFailed (assertsEnabled : Bool) (mem : Mem)
    (posBuf limitBuf : View) (size : Int)
    (hcmp : ¬ toInt64 (toInt64 (load64 mem posBuf.data) + Int32Value size)
      > toInt64 (load64 mem limitBuf.data))
    (hassert : assertsEnabled = true ∧ load64 mem posBuf.data % 2 = 0) :
    PointerAdd assertsEnabled mem posBuf limitBuf size = (BumpResult.assertionFailed, mem) := by
  unfold PointerAdd
  simp only [if_neg hcmp, toUInt64_toInt64_load64, toUInt64_kTagPointer, Nat.and_one_is_mod,
    if_pos hassert]

theorem toInt32_range (x : Int) : -2147483648 ≤ toInt32 x ∧ toInt32 x ≤ 2147483647 := by
  unfold toInt32; omega

theorem pointerAdd_Int32Value (assertsEnabled : Bool) (mem : Mem) (posBuf limitBuf : View)
    (size : Int) :
    PointerAdd assertsEnabled mem posBuf limitBuf size
      = PointerAdd assertsEnabled mem posBuf limitBuf (Int32Value size) := by
  have hr := toInt32_range size
  have h : Int32Value (Int32Value size) = Int32Value size :=
    toInt32_of_range (toInt32 size) hr.1 (by omega)
  unfold PointerAdd
  rw [h]

theorem pointerAdd_allocated (assertsEnabled : Bool) (mem : Mem) (posBuf limitBuf : View)
    (size : Int)
    (hcmp : ¬ toInt64 (toInt64 (load64 mem posBuf.data) + Int32Value size)
      > toInt64 (load64 mem limitBuf.data))
    (hassert : ¬ (assertsEnabled = true ∧ load64 mem posBuf.data % 2 = 0)) :
    (PointerAdd assertsEnabled mem posBuf limitBuf size).1
        = BumpResult.allocated ⟨load64 mem posBuf.data ^^^ 1, toUInt64 (Int32Value size)⟩ ∧
      load64 (PointerAdd assertsEnabled mem posBuf limitBuf size).2 posBuf.data
        = toUInt64 (toInt64 (load64 mem posBuf.data) + bumpAdvance (Int32Value size)) := by
  have hr := toInt32_range size
  rw [pointerAdd_Int32Value,
    pointerAdd_unfold assertsEnabled mem posBuf limitBuf (Int32Value size) hr.1 hr.2 hcmp hassert]
  refine ⟨rfl, ?_⟩
  unfold bumpAdvance
  by_cases hmod : Int.tmod (Int32Value size) kAlign ≠ 0
  · simp only [if_pos hmod]
    rw [load64_store64_toUInt64, toUInt64_add_left, Int.add_assoc]
  · simp only [if_neg hmod]
    rw [load64_store64_toUInt64, Int.add_zero]

theorem bumpAdvance_multiple (size : Int) : ∃ d : Int, bumpAdvance size = 16 * d := by
  have h := Int.tmod_add_tdiv size kAlign
  have hA : kAlign = 16 := rfl
  rw [hA] at h
  unfold bumpAdvance
  rw [hA]
  by_cases hmod : Int.tmod size 16 ≠ 0
  · rw [if_pos hmod]
    exact ⟨Int.tdiv size 16 + 1, by omega⟩
  · rw [if_neg hmod]
    exact ⟨Int.tdiv size 16, by omega⟩

theorem bumpAdvance_of_nonneg (size : Int) (h : 0 ≤ size) :
    bumpAdvance size = roundUp size kAlign := by
  rw [roundUp_align size h]
  unfold bumpAdvance
  split <;> omega

theorem toUInt64_add_multiple_mod (x : Nat) (d : Int) :
    toUInt64 (toInt64 (x : Int) + 16 * d) % 16 = x % 16 := by
  unfold toUInt64 toInt64
  omega

theorem pointerAdd_mem_of_not_allocated (assertsEnabled : Bool) (mem : Mem)
    (posBuf limitBuf : View) (size : Int)
    (h : ∀ v, (PointerAdd assertsEnabled mem posBuf limitBuf size).1 ≠ BumpResult.allocated v) :
    (PointerAdd assertsEnabled mem posBuf limitBuf size).2 = mem := by
  by_cases hcmp : toInt64 (toInt64 (load64 mem posBuf.data) + Int32Value size)
      > toInt64 (load64 mem limitBuf.data)
  · rw [pointerAdd_noAllocation assertsEnabled mem posBuf limitBuf size hcmp]
  · by_cases hassert : assertsEnabled = true ∧ load64 mem posBuf.data % 2 = 0
    · rw [pointerAdd_assertionFailed assertsEnabled mem posBuf limitBuf size hcmp hassert]
    · exact absurd (pointerAdd_allocated assertsEnabled mem posBuf limitBuf size hcmp hassert).1
        (h _)

theorem pointerAdd_noAllocation_iff_cmp (assertsEnabled : Bool) (mem : Mem)
    (posBuf limitBuf : View) (size : Int) :
    (PointerAdd assertsEnabled mem posBuf limitBuf size).1 = BumpResult.noAllocation
      ↔ toInt64 (toInt64 (load64 mem posBuf.data) + Int32Value size)
          > toInt64 (load64 mem limitBuf.data) := by
  constructor
  · intro h
    by_contra hcmp
    by_cases hassert : assertsEnabled = true ∧ load64 mem posBuf.data % 2 = 0
    · rw [pointerAdd_assertionFailed assertsEnabled mem posBuf limitBuf size hcmp hassert] at h
      exact BumpResult.noConfusion h
    · rw [(pointerAdd_allocated assertsEnabled mem posBuf limitBuf size hcmp hassert).1] at h
      exact BumpResult.noConfusion h
  · intro hcmp
    rw [pointerAdd_noAllocation assertsEnabled mem posBuf limitBuf size hcmp]

theorem pointerAdd_not_assertionFailed (assertsEnabled : Bool) (mem : Mem)
    (posBuf limitBuf : View) (size : Int) (htag : load64 mem posBuf.data % 2 = 1) :
    (PointerAdd assertsEnabled mem posBuf limitBuf size).1 ≠ BumpResult.assertionFailed := by
  by_cases hcmp : toInt64 (toInt64 (load64 mem posBuf.data) + Int32Value size)
      > toInt64 (load64 mem limitBuf.data)
  · rw [pointerAdd_noAllocation assertsEnabled mem posBuf limitBuf size hcmp]
    exact fun h => BumpResult.noConfusion h
  · have hassert : ¬ (assertsEnabled = true ∧ load64 mem posBuf.data % 2 = 0) := by
      intro h
      omega
    rw [(pointerAdd_allocated assertsEnabled mem posBuf limitBuf size hcmp hassert).1]
    exact fun h => BumpResult.noConfusion h

theorem pointerAdd_pos_allocated (assertsEnabled : Bool) (mem : Mem)
    (posBuf limitBuf : View) (size : Int) (v : View)
    (h : (PointerAdd assertsEnabled mem posBuf limitBuf size).1 = BumpResult.allocated v) :
    ¬ toInt64 (toInt64 (load64 mem posBuf.data) + Int32Value size)
        > toInt64 (load64 mem limitBuf.data) ∧
      load64 (PointerAdd assertsEnabled mem posBuf limitBuf size).2 posBuf.data
        = toUInt64 (toInt64 (load64 mem posBuf.data) + bumpAdvance (Int32Value size)) := by
  have hcmp : ¬ toInt64 (toInt64 (load64 mem posBuf.data) + Int32Value size)
      > toInt64 (load64 mem limitBuf.data) := by
    intro hcmp
    rw [pointerAdd_noAllocation assertsEnabled mem posBuf limitBuf size hcmp] at h
    exact BumpResult.noConfusion h
  have hassert : ¬ (assertsEnabled = true ∧ load64 mem posBuf.data % 2 = 0) := by
    intro hassert
    rw [pointerAdd_assertionFailed assertsEnabled mem posBuf limitBuf size hcmp hassert] at h
    exact BumpResult.noConfusion h
  exact ⟨hcmp, (pointerAdd_allocated assertsEnabled mem posBuf limitBuf size hcmp hassert).2⟩

theorem pointerAdd_pos_mod (assertsEnabled : Bool) (mem : Mem)
    (posBuf limitBuf : View) (size : Int) :
    load64 (PointerAdd assertsEnabled mem posBuf limitBuf size).2 posBuf.data % 16
      = load64 mem posBuf.data % 16 := by
  by_cases h : ∃ v, (PointerAdd assertsEnabled mem posBuf limitBuf size).1
      = BumpResult.allocated v
  · obtain ⟨v, hv⟩ := h
    obtain ⟨d, hd⟩ := bumpAdvance_multiple (Int32Value size)
    rw [(pointerAdd_pos_allocated assertsEnabled mem posBuf limitBuf size v hv).2, hd,
      toUInt64_add_multiple_mod]
  · rw [pointerAdd_mem_of_not_allocated assertsEnabled mem posBuf limitBuf size
      (fun v hv => h ⟨v, hv⟩)]

theorem pointerAddSeq_invariant (assertsEnabled : Bool) (posBuf : View) :
    ∀ (calls : List (View × Int)) (mem : Mem), load64 mem posBuf.data % 2 = 1 →
      BumpResult.assertionFailed ∉ (PointerAddSeq assertsEnabled posBuf mem calls).1 ∧
      load64 (PointerAddSeq assertsEnabled posBuf mem calls).2 posBuf.data % 16
        = load64 mem posBuf.data % 16 := by
  intro calls
  induction calls with
  | nil =>
    intro mem _
    simp [PointerAddSeq]
  | cons call rest ih =>
    intro mem htag
    have hne := pointerAdd_not_assertionFailed assertsEnabled mem posBuf call.1 call.2 htag
    have hmod := pointerAdd_pos_mod assertsEnabled mem posBuf call.1 call.2
    have htag' : load64 (PointerAdd assertsEnabled mem posBuf call.1 call.2).2 posBuf.data % 2
        = 1 := by omega
    obtain ⟨ih1, ih2⟩ := ih _ htag'
    rw [PointerAddSeq]
    simp only [if_neg hne]
    refine ⟨?_, ?_⟩
    · intro hmem
      rcases List.mem_cons.mp hmem with h | h
      · exact hne h.symm
      · exact ih1 h
    · rw [ih2, hmod]

theorem bump_slack (pos lim size : Int) (hcmp : ¬ toInt64 (pos + size) > lim) :
    toInt64 (pos + (size + 16 - 1) / 16 * 16) < lim + 16 ∧
      ((lim - pos) % 16 = 0 → toInt64 (pos + (size + 16 - 1) / 16 * 16) ≤ lim) := by
  unfold toInt64 at *
  omega

/-- C11. Failed bump: for every stored `pos` and `limit` (the `intptr_t` values of
the two cells) and every 32-bit `size`, `PointerAdd` returns `false` if and only
if `pos + size > limit`, the sum being the `intptr_t` sum of line 365 (the exact
sum whenever that fits an `intptr_t`); and when it returns `false` the whole
memory, the `pos` and `limit` cells included, is the one it was given. The
`assert` plays no part. -/
theorem pointerAdd_failure (assertsEnabled : Bool) (mem : Mem) (posBuf limitBuf : View)
    (size : Int) (hlo : -2147483648 ≤ size) (hhi : size ≤ 2147483647) :
    ((PointerAdd assertsEnabled mem posBuf limitBuf size).1 = BumpResult.noAllocation
        ↔ toInt64 (toInt64 (load64 mem posBuf.data) + size)
            > toInt64 (load64 mem limitBuf.data)) ∧
    (toInt64 (load64 mem posBuf.data) + size < 9223372036854775808 →
      -9223372036854775808 ≤ toInt64 (load64 mem posBuf.data) + size →
      ((PointerAdd assertsEnabled mem posBuf limitBuf size).1 = BumpResult.noAllocation
        ↔ toInt64 (load64 mem posBuf.data) + size > toInt64 (load64 mem limitBuf.data))) ∧
    ((PointerAdd assertsEnabled mem posBuf limitBuf size).1 = BumpResult.noAllocation →
      (PointerAdd assertsEnabled mem posBuf limitBuf size).2 = mem) := by
  have hsz : Int32Value size = size := toInt32_of_range size hlo (by omega)
  have hiff := pointerAdd_noAllocation_iff_cmp assertsEnabled mem posBuf limitBuf size
  rw [hsz] at hiff
  refine ⟨hiff, ?_, ?_⟩
  · intro h1 h0
    rw [hiff, toInt64_of_range _ h0 h1]
  · intro h
    apply pointerAdd_mem_of_not_allocated
    intro v hv
    rw [hv] at h
    exact BumpResult.noConfusion h

theorem pointerAdd_failure_witness :
    ((PointerAdd true (bumpCells 117 116) ⟨1000, 8⟩ ⟨2000, 8⟩ 8).1 = BumpResult.noAllocation
        ↔ toInt64 (toInt64 (load64 (bumpCells 117 116) (View.data ⟨1000, 8⟩)) + 8)
            > toInt64 (load64 (bumpCells 117 116) (View.data ⟨2000, 8⟩))) ∧
    (toInt64 (load64 (bumpCells 117 116) (View.data ⟨1000, 8⟩)) + 8 < 9223372036854775808 →
      -9223372036854775808 ≤ toInt64 (load64 (bumpCells 117 116) (View.data ⟨1000, 8⟩)) + 8 →
      ((PointerAdd true (bumpCells 117 116) ⟨1000, 8⟩ ⟨2000, 8⟩ 8).1 = BumpResult.noAllocation
        ↔ toInt64 (load64 (bumpCells 117 116) (View.data ⟨1000, 8⟩)) + 8
            > toInt64 (load64 (bumpCells 117 116) (View.data ⟨2000, 8⟩)))) ∧
    ((PointerAdd true (bumpCells 117 116) ⟨1000, 8⟩ ⟨2000, 8⟩ 8).1 = BumpResult.noAllocation →
      (PointerAdd true (bumpCells 117 116) ⟨1000, 8⟩ ⟨2000, 8⟩ 8).2 = bumpCells 117 116) :=
  pointerAdd_failure true (bumpCells 117 116) ⟨1000, 8⟩ ⟨2000, 8⟩ 8 (by decide) (by decide)

theorem sub_toInt64_mod (lim x : Int) (h : (lim - toInt64 x) % 16 = 0) :
    (lim - x) % 16 = 0 := by
  unfold toInt64 at h
  omega

/-- C19, as amended. After a successful `PointerAdd` the new stored `pos` is
below `limit + kAlign`: it can pass the limit, by less than 16, because line 365
tests `size` while lines 371-373 add `size` rounded up. It is still at most
`limit` whenever `limit - pos` is a multiple of `kAlign`. -/
theorem pointerAdd_limit_slack (assertsEnabled : Bool) (mem : Mem) (posBuf limitBuf v : View)
    (size : Int) (hsize0 : 0 ≤ size) (hsize1 : size ≤ 2147483647)
    (hok : (PointerAdd assertsEnabled mem posBuf limitBuf size).1 = BumpResult.allocated v) :
    toInt64 (load64 (PointerAdd assertsEnabled mem posBuf limitBuf size).2 posBuf.data)
        < toInt64 (load64 mem limitBuf.data) + kAlign ∧
    ((toInt64 (load64 mem limitBuf.data) - toInt64 (load64 mem posBuf.data)) % kAlign = 0 →
      toInt64 (load64 (PointerAdd assertsEnabled mem posBuf limitBuf size).2 posBuf.data)
        ≤ toInt64 (load64 mem limitBuf.data)) := by
  have hsz : Int32Value size = size := toInt32_of_range size (by omega) (by omega)
  obtain ⟨hcmp, hpos⟩ := pointerAdd_pos_allocated assertsEnabled mem posBuf limitBuf size v hok
  rw [hsz] at hcmp hpos
  rw [toInt64_add_left] at hcmp
  have h := bump_slack (load64 mem posBuf.data) (toInt64 (load64 mem limitBuf.data)) size hcmp
  have hnew : toInt64 (load64 (PointerAdd assertsEnabled mem posBuf limitBuf size).2 posBuf.data)
      = toInt64 ((load64 mem posBuf.data : Int) + (size + 16 - 1) / 16 * 16) := by
    rw [hpos, toInt64_toUInt64, toInt64_add_left, bumpAdvance_of_nonneg size hsize0]
    rfl
  have hA : kAlign = 16 := rfl
  rw [hnew, hA]
  exact ⟨h.1, fun hm => h.2 (sub_toInt64_mod _ _ hm)⟩

theorem pointerAdd_limit_slack_witness :
    toInt64 (load64 (PointerAdd true (bumpCells 101 116) ⟨1000, 8⟩ ⟨2000, 8⟩ 8).2
        (View.data ⟨1000, 8⟩))
        < toInt64 (load64 (bumpCells 101 116) (View.data ⟨2000, 8⟩)) + kAlign ∧
    ((toInt64 (load64 (bumpCells 101 116) (View.data ⟨2000, 8⟩))
        - toInt64 (load64 (bumpCells 101 116) (View.data ⟨1000, 8⟩))) % kAlign = 0 →
      toInt64 (load64 (PointerAdd true (bumpCells 101 116) ⟨1000, 8⟩ ⟨2000, 8⟩ 8).2
        (View.data ⟨1000, 8⟩))
        ≤ toInt64 (load64 (bumpCells 101 116) (View.data ⟨2000, 8⟩))) :=
  pointerAdd_limit_slack true (bumpCells 101 116) ⟨1000, 8⟩ ⟨2000, 8⟩ ⟨100, 8⟩ 8
    (by decide) (by decide) rfl

/-- C19, counterexample. With 101 in the `pos` cell (tagged, not above the limit),
116 in the `limit` cell and `size = 8`, the call succeeds and leaves 117 in the
`pos` cell, which is above the limit. -/
theorem pointerAdd_passes_limit_counterexample :
    load64 (bumpCells 101 116) 1000 % 2 = 1 ∧
    toInt64 (load64 (bumpCells 101 116) 1000) ≤ toInt64 (load64 (bumpCells 101 116) 2000) ∧
    (PointerAdd true (bumpCells 101 116) ⟨1000, 8⟩ ⟨2000, 8⟩ 8).1
      = BumpResult.allocated ⟨100, 8⟩ ∧
    toInt64 (load64 (PointerAdd true (bumpCells 101 116) ⟨1000, 8⟩ ⟨2000, 8⟩ 8).2 1000) = 117 ∧
    load64 (PointerAdd true (bumpCells 101 116) ⟨1000, 8⟩ ⟨2000, 8⟩ 8).2 2000 = 116 ∧
    ¬ (toInt64 (load64 (PointerAdd true (bumpCells 101 116) ⟨1000, 8⟩ ⟨2000, 8⟩ 8).2 1000)
        ≤ toInt64 (load64 (PointerAdd true (bumpCells 101 116) ⟨1000, 8⟩ ⟨2000, 8⟩ 8).2 2000)) :=
  ⟨rfl, by decide, rfl, rfl, rfl, by decide⟩

/-- C20. `PointerAdd` keeps the bump pointer tagged: for every stored `pos`,
every limit and every size, negative ones included, a successful call changes
the stored `pos` by a multiple of `kAlign` in 64-bit arithmetic, so that
`pos mod 16` and the tag bit stay as they were; and in any run of `PointerAdd`
calls on that `pos` buffer starting with a tagged `pos`, no call fails the
`assert` of line 369 and `pos mod 16` is at the end what it was at the start. -/
theorem pointerAdd_keeps_tag (assertsEnabled : Bool) (mem : Mem) (posBuf limitBuf : View)
    (size : Int) (calls : List (View × Int)) :
    (∀ v, (PointerAdd assertsEnabled mem posBuf limitBuf size).1 = BumpResult.allocated v →
      (∃ d : Int, load64 (PointerAdd assertsEnabled mem posBuf limitBuf size).2 posBuf.data
          = toUInt64 (toInt64 (load64 mem posBuf.data) + kAlign * d)) ∧
      load64 (PointerAdd assertsEnabled mem posBuf limitBuf size).2 posBuf.data % 16
        = load64 mem posBuf.data % 16 ∧
      load64 (PointerAdd assertsEnabled mem posBuf limitBuf size).2 posBuf.data % 2
        = load64 mem posBuf.data % 2) ∧
    (load64 mem posBuf.data % 2 = 1 →
      BumpResult.assertionFailed ∉ (PointerAddSeq assertsEnabled posBuf mem calls).1 ∧
      load64 (PointerAddSeq assertsEnabled posBuf mem calls).2 posBuf.data % 16
        = load64 mem posBuf.data % 16 ∧
      load64 (PointerAddSeq assertsEnabled posBuf mem calls).2 posBuf.data % 2 = 1) := by
  have hmod := pointerAdd_pos_mod assertsEnabled mem posBuf limitBuf size
  refine ⟨fun v hv => ⟨?_, hmod, by omega⟩, fun htag => ?_⟩
  · obtain ⟨d, hd⟩ := bumpAdvance_multiple (Int32Value size)
    refine ⟨d, ?_⟩
    have hA : kAlign = 16 := rfl
    rw [(pointerAdd_pos_allocated assertsEnabled mem posBuf limitBuf size v hv).2, hd, hA]
  · obtain ⟨h1, h2⟩ := pointerAddSeq_invariant assertsEnabled posBuf calls mem htag
    exact ⟨h1, h2, by omega⟩

theorem pointerAdd_keeps_tag_witness :
    BumpResult.assertionFailed ∉
        (PointerAddSeq true ⟨1000, 8⟩ (bumpCells 101 216)
          [(⟨2000, 8⟩, 8), (⟨2000, 8⟩, -3), (⟨2000, 8⟩, 500), (⟨2000, 8⟩, 17)]).1 ∧
      load64 (PointerAddSeq true ⟨1000, 8⟩ (bumpCells 101 216)
          [(⟨2000, 8⟩, 8), (⟨2000, 8⟩, -3), (⟨2000, 8⟩, 500), (⟨2000, 8⟩, 17)]).2
          (View.data ⟨1000, 8⟩) % 16
        = load64 (bumpCells 101 216) (View.data ⟨1000, 8⟩) % 16 ∧
      load64 (PointerAddSeq true ⟨1000, 8⟩ (bumpCells 101 216)
          [(⟨2000, 8⟩, 8), (⟨2000, 8⟩, -3), (⟨2000, 8⟩, 500), (⟨2000, 8⟩, 17)]).2
          (View.data ⟨1000, 8⟩) % 2 = 1 :=
  (pointerAdd_keeps_tag true (bumpCells 101 216) ⟨1000, 8⟩ ⟨2000, 8⟩ (-3)
    [(⟨2000, 8⟩, 8), (⟨2000, 8⟩, -3), (⟨2000, 8⟩, 500), (⟨2000, 8⟩, 17)]).2 rfl

/-! ## The mark bitmap addressor: alignment and the comparison with the specification -/

theorem or_fifteen (x : Nat) : x ||| 15 = 16 * (x / 16) + 15 := by
  have hx : x = 2 ^ 4 * (x / 16) + x % 16 := by omega
  have hr : x % 16 < 2 ^ 4 := by omega
  have h15 : (15 : Nat) < 2 ^ 4 := by omega
  have hor : x % 16 ||| 15 = 15 := by
    have : x % 16 < 16 := by omega
    interval_cases (x % 16) <;> rfl
  have h1 : x ||| 15 = 2 ^ 4 * (x / 16) ||| 15 := by
    conv_lhs => rw [hx, Nat.mul_add_lt_is_or hr, Nat.or_assoc, hor]
  rw [h1, ← Nat.mul_add_lt_is_or h15]

theorem and_fifteen (x : Nat) : x &&& 15 = x % 16 :=
  Nat.and_pow_two_sub_one_eq_mod x 4

theorem and_seven (x : Nat) : x &&& 7 = x % 8 :=
  Nat.and_pow_two_sub_one_eq_mod x 3

theorem toUInt64_kAlign_pred : toUInt64 (kAlign - 1) = 15 := rfl

theorem toUInt64_kPointerSize : toUInt64 kPointerSize = 8 := rfl

theorem toUInt64_kPointerSize_pred : toUInt64 (kPointerSize - 1) = 7 := rfl

theorem pageStart_aligned (ptr : Nat) (P B : Int) :
    pageStart ptr P B % 16 = 0 ∧ pageStart ptr P B < 18446744073709551616 := by
  unfold pageStart
  simp only [toUInt64_kAlign_pred, and_fifteen, or_fifteen]
  split <;> omega

theorem pageStart_eq (ptr : Nat) (P B : Int) (x : Nat)
    (hx : (bitfieldBase ptr P + toUInt64 (bitfieldSize P B)) % 18446744073709551616 = x) :
    pageStart ptr P B
      = if x % 16 ≠ 0 then (16 * (x / 16) + 15 + 1) % 18446744073709551616 else x := by
  unfold pageStart
  simp only [toUInt64_kAlign_pred, and_fifteen, or_fifteen, hx]

theorem bitfieldBase_le (ptr : Nat) (P : Int) (h : ptr < 18446744073709551616) :
    bitfieldBase ptr P ≤ ptr := by
  unfold bitfieldBase
  rw [Nat.mod_eq_of_lt h]
  exact Nat.and_le_left

theorem pageMask_eq (k : Nat) (hk : k ≤ 30) :
    toUInt64 (~~~ toInt32 ((2 : Int) ^ k - 1)) = notUInt64 (2 ^ k - 1) := by
  interval_cases k <;> rfl

theorem pageMask_and_seven (k : Nat) (hk3 : 3 ≤ k) (hk : k ≤ 30) :
    toUInt64 (~~~ toInt32 ((2 : Int) ^ k - 1)) &&& 7 = 0 := by
  interval_cases k <;> rfl

theorem bitfieldBase_mod_eight (ptr k : Nat) (hk3 : 3 ≤ k) (hk : k ≤ 30) :
    bitfieldBase ptr (2 ^ k) % 8 = 0 := by
  unfold bitfieldBase
  rw [← and_seven, Nat.and_assoc, pageMask_and_seven k hk3 hk, Nat.and_zero]

theorem and_pageMask (a k : Nat) (ha : a < 2 ^ 64) (hk : k ≤ 64) :
    a &&& (2 ^ 64 - ((2 ^ k - 1) + 1)) = 2 ^ k * (a / 2 ^ k) := by
  have hlt : 2 ^ k - 1 < 2 ^ 64 := by
    have : 2 ^ k ≤ 2 ^ 64 := Nat.pow_le_pow_right (by omega) hk
    have : 0 < 2 ^ k := Nat.two_pow_pos k
    omega
  apply Nat.eq_of_testBit_eq
  intro i
  rw [Nat.testBit_and, Nat.testBit_two_pow_sub_succ hlt, Nat.testBit_two_pow_sub_one,
    Nat.testBit_mul_pow_two, ← Nat.shiftRight_eq_div_pow, Nat.testBit_shiftRight]
  by_cases hik : i < k
  · have : ¬ k ≤ i := by omega
    simp [hik, this]
  · have hki : k ≤ i := by omega
    have hadd : k + (i - k) = i := by omega
    by_cases hi64 : i < 64
    · simp [hik, hki, hi64, hadd]
    · have : a.testBit i = false := testBit_of_lt_two_pow_le a 64 i ha (by omega)
      simp [hik, hki, hi64, hadd, this]

theorem notUInt64_pageMask (k : Nat) (hk : k ≤ 30) :
    notUInt64 (2 ^ k - 1) = 2 ^ 64 - ((2 ^ k - 1) + 1) := by
  interval_cases k <;> rfl

theorem specBitfieldBase_eq (a k : Nat) (ha : a < 2 ^ 64) (hk : k ≤ 30) :
    specBitfieldBase a (2 ^ k) = 2 ^ k * (a / 2 ^ k) := by
  unfold specBitfieldBase
  rw [notUInt64_pageMask k hk, and_pageMask a k ha (by omega)]

theorem bitfieldBase_eq_spec (a k : Nat) (ha : a < 2 ^ 64) (hk : k ≤ 30) :
    bitfieldBase a (2 ^ k) = specBitfieldBase a (2 ^ k) := by
  have ha' : a < 18446744073709551616 := by simpa using ha
  unfold bitfieldBase specBitfieldBase
  rw [Nat.mod_eq_of_lt ha', pageMask_eq k hk]

theorem specBitfieldBase_bounds (a k : Nat) (ha : a < 2 ^ 64) (hk : k ≤ 30) :
    specBitfieldBase a (2 ^ k) ≤ a ∧ a < specBitfieldBase a (2 ^ k) + 2 ^ k := by
  rw [specBitfieldBase_eq a k ha hk]
  have h1 := Nat.div_add_mod a (2 ^ k)
  have h2 : a % 2 ^ k < 2 ^ k := Nat.mod_lt _ (Nat.two_pow_pos k)
  omega

theorem bitfieldSize_eq_spec (k B : Nat) (hprod : 2 ^ k * B < 2 ^ 31) :
    bitfieldSize (2 ^ k) B = ((specBitfieldSize (2 ^ k) B : Nat) : Int) := by
  have h64 : toInt32 (kPointerSize * kPointerSize) = 64 := rfl
  have hcast : ((2 : Int) ^ k * (B : Int)) = ((2 ^ k * B : Nat) : Int) := by push_cast; rfl
  have hlt : ((2 ^ k * B : Nat) : Int) < 2147483648 := by
    have : (2 : Nat) ^ 31 = 2147483648 := by norm_num
    omega
  unfold bitfieldSize specBitfieldSize
  rw [h64, hcast, toInt32_of_range _ (by omega) hlt,
    Int.tdiv_eq_ediv (by omega) (by omega)]
  omega

theorem mul_div_eight_le (d B : Nat) (hB : B ≤ 8) : d * B / 8 ≤ d := by
  interval_cases B <;> omega

theorem mul_lt_of_small (d B : Nat) (hd : d < 1073741824) (hB : B ≤ 8) :
    d * B < 18446744073709551616 := by
  interval_cases B <;> omega

theorem two_pow_le_of_le_thirty (k : Nat) (hk : k ≤ 30) : 2 ^ k ≤ 1073741824 := by
  have h : (2 : Nat) ^ k ≤ 2 ^ 30 := Nat.pow_le_pow_right (by omega) hk
  have h30 : (2 : Nat) ^ 30 = 1073741824 := by norm_num
  omega

theorem specPageStart_least (a P B : Nat) :
    specPageStart a P B % 16 = 0 ∧
      specBitfieldBase a P + specBitfieldSize P B ≤ specPageStart a P B ∧
      specPageStart a P B < specBitfieldBase a P + specBitfieldSize P B + 16 := by
  unfold specPageStart
  omega

theorem pageStart_eq_spec (a k B : Nat) (hk : k ≤ 30) (ha : a < 2 ^ 64)
    (hprod : 2 ^ k * B < 2 ^ 31) (hobj : specPageStart a (2 ^ k) B ≤ a) :
    pageStart a (2 ^ k) B = specPageStart a (2 ^ k) B := by
  have ha' : a < 18446744073709551616 := by simpa using ha
  have hleast := specPageStart_least a (2 ^ k) B
  have hx : (bitfieldBase a (2 ^ k) + toUInt64 (bitfieldSize (2 ^ k) B)) % 18446744073709551616
      = specBitfieldBase a (2 ^ k) + specBitfieldSize (2 ^ k) B := by
    rw [bitfieldBase_eq_spec a k ha hk, bitfieldSize_eq_spec k B hprod,
      toUInt64_natCast _ (by omega)]
    exact Nat.mod_eq_of_lt (by omega)
  rw [pageStart_eq a (2 ^ k) B _ hx]
  unfold specPageStart at hobj hleast ⊢
  split <;> omega

theorem bitOffset_eq_spec (a k B : Nat) (hk : k ≤ 30) (hB8 : B ≤ 8) (ha : a < 2 ^ 64)
    (hprod : 2 ^ k * B < 2 ^ 31) (hobj : specPageStart a (2 ^ k) B ≤ a) :
    bitOffset a (2 ^ k) B = specBitOffset a (2 ^ k) B := by
  have ha' : a < 18446744073709551616 := by simpa using ha
  have hleast := specPageStart_least a (2 ^ k) B
  have hb := specBitfieldBase_bounds a k ha hk
  have hP := two_pow_le_of_le_thirty k hk
  have hsub : subUInt64 a (specPageStart a (2 ^ k) B) = a - specPageStart a (2 ^ k) B := by
    unfold subUInt64
    omega
  have hd : a - specPageStart a (2 ^ k) B < 1073741824 := by omega
  unfold bitOffset specBitOffset
  rw [pageStart_eq_spec a k B hk ha hprod hobj, hsub, toUInt64_natCast B (by omega),
    Nat.mod_eq_of_lt (mul_lt_of_small _ B hd hB8), toUInt64_kPointerSize]

/-- C17, as amended. `GetMarkingWord` computes the five steps of the addressor
whenever the product `P * B` fits an `int`: for every page size `P = 2^k` and
bit count `1 ≤ B ≤ 8` with `P * B < 2^31` and every 64-bit address `a` at or
after the `pageStart` of its page, the locals `bitfield`, `page` and `bit_off`
are the `bitfieldBase`, `pageStart` (the least multiple of 16 not below
`bitfieldBase + P*B/64`) and `bitOffset` of the specification, the word
returned is at `bitfieldBase + (bitOffset/8)*8`, the shift is `bitOffset % 8`,
at most 7, and the `B` bits at that shift lie inside the 64-bit word. -/
theorem getMarkingWord_five_steps (a k B : Nat) (hk : k ≤ 30) (_hB1 : 1 ≤ B) (hB8 : B ≤ 8)
    (ha : a < 2 ^ 64) (hprod : 2 ^ k * B < 2 ^ 31) (hobj : specPageStart a (2 ^ k) B ≤ a) :
    bitfieldBase a (2 ^ k) = specBitfieldBase a (2 ^ k) ∧
    pageStart a (2 ^ k) B = specPageStart a (2 ^ k) B ∧
    (specPageStart a (2 ^ k) B % 16 = 0 ∧
      specBitfieldBase a (2 ^ k) + specBitfieldSize (2 ^ k) B ≤ specPageStart a (2 ^ k) B ∧
      specPageStart a (2 ^ k) B < specBitfieldBase a (2 ^ k) + specBitfieldSize (2 ^ k) B + 16) ∧
    bitOffset a (2 ^ k) B = specBitOffset a (2 ^ k) B ∧
    GetMarkingWord a (2 ^ k) B = specMarkingWord a (2 ^ k) B ∧
    (GetMarkingWord a (2 ^ k) B).2 ≤ 7 ∧
    (GetMarkingWord a (2 ^ k) B).2 + B ≤ 64 := by
  have ha' : a < 18446744073709551616 := by simpa using ha
  have hleast := specPageStart_least a (2 ^ k) B
  have hb := specBitfieldBase_bounds a k ha hk
  have hbo := bitOffset_eq_spec a k B hk hB8 ha hprod hobj
  have hshift := getMarkingWord_shift_le a (2 ^ k) B
  have hle := mul_div_eight_le (a - specPageStart a (2 ^ k) B) B hB8
  have hword : GetMarkingWord a (2 ^ k) B = specMarkingWord a (2 ^ k) B := by
    unfold GetMarkingWord specMarkingWord
    simp only [hbo, bitfieldBase_eq_spec a k ha hk, toUInt64_kPointerSize,
      toUInt64_kPointerSize_pred, and_seven]
    have hfit : specBitfieldBase a (2 ^ k) + 8 * (specBitOffset a (2 ^ k) B / 8)
        < 18446744073709551616 := by
      unfold specBitOffset
      omega
    rw [Nat.mod_eq_of_lt hfit, Nat.mul_comm 8]
  exact ⟨bitfieldBase_eq_spec a k ha hk, pageStart_eq_spec a k B hk ha hprod hobj, hleast,
    hbo, hword, hshift, by omega⟩

theorem getMarkingWord_five_steps_witness :
    bitfieldBase 4352 (2 ^ 12) = specBitfieldBase 4352 (2 ^ 12) ∧
    pageStart 4352 (2 ^ 12) (3 : Nat) = specPageStart 4352 (2 ^ 12) 3 ∧
    (specPageStart 4352 (2 ^ 12) 3 % 16 = 0 ∧
      specBitfieldBase 4352 (2 ^ 12) + specBitfieldSize (2 ^ 12) 3 ≤ specPageStart 4352 (2 ^ 12) 3 ∧
      specPageStart 4352 (2 ^ 12) 3 < specBitfieldBase 4352 (2 ^ 12) + specBitfieldSize (2 ^ 12) 3 + 16) ∧
    bitOffset 4352 (2 ^ 12) (3 : Nat) = specBitOffset 4352 (2 ^ 12) 3 ∧
    GetMarkingWord 4352 (2 ^ 12) (3 : Nat) = specMarkingWord 4352 (2 ^ 12) 3 ∧
    (GetMarkingWord 4352 (2 ^ 12) (3 : Nat)).2 ≤ 7 ∧
    (GetMarkingWord 4352 (2 ^ 12) (3 : Nat)).2 + 3 ≤ 64 :=
  getMarkingWord_five_steps 4352 12 3 (by decide) (by decide) (by decide) (by decide)
    (by decide) (by decide)

/-- C17, counterexample. Page size `2^30` with two bits per object, whose product
`2^31` does not fit an `int`: for the first object of the page at `2^30`
(address `2^30 + 2^25`, its `pageStart`) the specification gives the word at
`2^30` with shift 0, while `GetMarkingWord`, with a `bitfield_size` of `-2^25`,
gives the word at `2^30 + 2^24`. -/
theorem getMarkingWord_overflow_counterexample :
    specPageStart 1107296256 (2 ^ 30) 2 = 1107296256 ∧
    specMarkingWord 1107296256 (2 ^ 30) 2 = (1073741824, 0) ∧
    bitfieldSize (2 ^ 30) 2 = -33554432 ∧
    GetMarkingWord 1107296256 (2 ^ 30) 2 = (1090519040, 0) ∧
    GetMarkingWord 1107296256 (2 ^ 30) 2 ≠ specMarkingWord 1107296256 (2 ^ 30) 2 :=
  ⟨rfl, rfl, rfl, rfl, by decide⟩

theorem pageStart_congr (p1 p2 : Nat) (P B : Int) (h : bitfieldBase p1 P = bitfieldBase p2 P) :
    pageStart p1 P B = pageStart p2 P B := by
  unfold pageStart
  rw [h]

theorem bitOffset_of_aligned (D B : Nat) (hB8 : B ≤ 8) (hD : D % 8 = 0) :
    (D * B) % 18446744073709551616 / 8 = (D / 8 * B) % 2305843009213693952 := by
  interval_cases B <;> omega

theorem subUInt64_rel (a1 a2 page : Nat) (h1 : a1 % 8 = 0) (h2 : a2 % 8 = 0)
    (hpage : page % 16 = 0)
    (hlt1 : a1 < 18446744073709551616) (hlt2 : a2 < 18446744073709551616) :
    subUInt64 a1 page % 8 = 0 ∧ subUInt64 a2 page % 8 = 0 ∧
    subUInt64 a1 page / 8 < 2305843009213693952 ∧
    subUInt64 a2 page / 8 < 2305843009213693952 ∧
    (subUInt64 a1 page / 8 + a2 / 8 + 2305843009213693952 = subUInt64 a2 page / 8 + a1 / 8
      ∨ subUInt64 a1 page / 8 + a2 / 8 = subUInt64 a2 page / 8 + a1 / 8
      ∨ subUInt64 a1 page / 8 + a2 / 8 = subUInt64 a2 page / 8 + a1 / 8 + 2305843009213693952) := by
  unfold subUInt64
  omega

theorem bit_offsets_congr (E1 E2 A1 A2 B : Nat) (hB8 : B ≤ 8)
    (hrel : E1 + A2 + 2305843009213693952 = E2 + A1 ∨ E1 + A2 = E2 + A1
      ∨ E1 + A2 = E2 + A1 + 2305843009213693952) :
    ((((E1 * B) % 2305843009213693952 : Nat) : Int) - (((E2 * B) % 2305843009213693952 : Nat) : Int)
      - (B : Int) * ((A1 : Int) - (A2 : Int))) % 2305843009213693952 = 0 := by
  interval_cases B <;> omega

theorem small_multiple_zero (t m : Int) (ht0 : -1073741824 < t) (ht1 : t < 1073741824)
    (h : t = 2305843009213693952 * m) : m = 0 := by
  omega

theorem bit_ranges_apart (X1 X2 A1 A2 B : Nat) (hB1 : 1 ≤ B) (hB8 : B ≤ 8)
    (hne : A1 ≠ A2) (hA1 : A1 < A2 + 134217728) (hA2 : A2 < A1 + 134217728)
    (hcongr : ((X1 : Int) - (X2 : Int) - (B : Int) * ((A1 : Int) - (A2 : Int)))
      % 2305843009213693952 = 0) :
    X1 / 8 ≠ X2 / 8 ∨ X1 % 8 + B ≤ X2 % 8 ∨ X2 % 8 + B ≤ X1 % 8 := by
  by_cases hq : X1 / 8 = X2 / 8
  · right
    obtain ⟨m, hm⟩ := Int.dvd_of_emod_eq_zero hcongr
    have hm0 : m = 0 := by
      apply small_multiple_zero _ m _ _ hm
      · interval_cases B <;> omega
      · interval_cases B <;> omega
    rw [hm0, Int.mul_zero] at hm
    interval_cases B <;> omega
  · exact Or.inl hq

theorem bitfieldBase_bounds (a k : Nat) (ha : a < 2 ^ 64) (hk : k ≤ 30) :
    bitfieldBase a (2 ^ k) ≤ a ∧ a < bitfieldBase a (2 ^ k) + 1073741824 := by
  have h := specBitfieldBase_bounds a k ha hk
  have hP := two_pow_le_of_le_thirty k hk
  rw [bitfieldBase_eq_spec a k ha hk]
  omega

theorem getMarkingWord_eq (a : Nat) (P : Int) (B : Nat) (hB8 : B ≤ 8) :
    GetMarkingWord a P B
      = ((bitfieldBase a P
            + 8 * ((subUInt64 a (pageStart a P B) * B) % 18446744073709551616 / 8 / 8))
          % 18446744073709551616,
        (subUInt64 a (pageStart a P B) * B) % 18446744073709551616 / 8 % 8) := by
  unfold GetMarkingWord bitOffset
  simp only [toUInt64_kPointerSize, toUInt64_kPointerSize_pred, and_seven,
    toUInt64_natCast B (by omega)]

theorem getMarkingWord_word_aligned (a k B : Nat) (hk3 : 3 ≤ k) (hk : k ≤ 30) :
    (GetMarkingWord a (2 ^ k) B).1 % 8 = 0 ∧
      (GetMarkingWord a (2 ^ k) B).1 < 18446744073709551616 := by
  have hb := bitfieldBase_mod_eight a k hk3 hk
  unfold GetMarkingWord
  simp only
  omega

theorem getMarkingWord_positions_disjoint (a1 a2 k B : Nat) (hk : k ≤ 30)
    (hB1 : 1 ≤ B) (hB8 : B ≤ 8) (ha1 : a1 < 2 ^ 64) (ha2 : a2 < 2 ^ 64)
    (h1 : a1 % 8 = 0) (h2 : a2 % 8 = 0) (hne : a1 ≠ a2)
    (hpage : bitfieldBase a1 (2 ^ k) = bitfieldBase a2 (2 ^ k)) :
    (GetMarkingWord a1 (2 ^ k) B).1 ≠ (GetMarkingWord a2 (2 ^ k) B).1
      ∨ (GetMarkingWord a1 (2 ^ k) B).2 + B ≤ (GetMarkingWord a2 (2 ^ k) B).2
      ∨ (GetMarkingWord a2 (2 ^ k) B).2 + B ≤ (GetMarkingWord a1 (2 ^ k) B).2 := by
  have ha1' : a1 < 18446744073709551616 := by simpa using ha1
  have ha2' : a2 < 18446744073709551616 := by simpa using ha2
  have hb1 := bitfieldBase_bounds a1 k ha1 hk
  have hb2 := bitfieldBase_bounds a2 k ha2 hk
  have hpg := pageStart_aligned a2 (2 ^ k) B
  rw [getMarkingWord_eq a1 _ B hB8, getMarkingWord_eq a2 _ B hB8,
    pageStart_congr a1 a2 _ _ hpage, hpage]
  rw [hpage] at hb1
  obtain ⟨hd1, hd2, he1, he2, hrel⟩ :=
    subUInt64_rel a1 a2 (pageStart a2 (2 ^ k) B) h1 h2 hpg.1 ha1' ha2'
  rw [bitOffset_of_aligned _ B hB8 hd1, bitOffset_of_aligned _ B hB8 hd2]
  have hcongr := bit_offsets_congr _ _ (a1 / 8) (a2 / 8) B hB8 hrel
  have hapart := bit_ranges_apart _ _ (a1 / 8) (a2 / 8) B hB1 hB8 (by omega) (by omega)
    (by omega) hcongr
  have hx1 : (subUInt64 a1 (pageStart a2 (2 ^ k) B) / 8 * B) % 2305843009213693952
      < 2305843009213693952 := Nat.mod_lt _ (by omega)
  have hx2 : (subUInt64 a2 (pageStart a2 (2 ^ k) B) / 8 * B) % 2305843009213693952
      < 2305843009213693952 := Nat.mod_lt _ (by omega)
  revert hapart hx1 hx2
  generalize (subUInt64 a1 (pageStart a2 (2 ^ k) B) / 8 * B) % 2305843009213693952 = X1
  generalize (subUInt64 a2 (pageStart a2 (2 ^ k) B) / 8 * B) % 2305843009213693952 = X2
  intro hapart hx1 hx2
  simp only
  omega

theorem words_share_no_byte (w1 w2 : Nat) (h1 : w1 % 8 = 0) (h2 : w2 % 8 = 0)
    (hlt1 : w1 < 18446744073709551616) (hlt2 : w2 < 18446744073709551616) (hne : w1 ≠ w2) :
    ∀ i j, i < 8 → j < 8 → byteAddr w2 j ≠ byteAddr w1 i := by
  intro i j hi hj
  unfold byteAddr
  omega

/-- C18. Distinct objects get disjoint mark bits: for every page size `2^k` with
`3 ≤ k ≤ 30`, every bit count `1 ≤ B ≤ 8` and every two distinct 8-byte-aligned
64-bit addresses of the same page (the same `bitfieldBase`; they need not even
lie at or after `pageStart`), the positions located by `GetMarkingWord` are
different words or have bit ranges `[shift, shift + B)` that do not overlap;
hence `WriteMark` at the first address with a value that fits in `B` bits leaves
what `ReadMark` returns at the second address as it was. -/
theorem distinct_objects_disjoint_marks (mem : Mem) (buf1 buf2 : View) (k B : Nat) (m : Int)
    (hk3 : 3 ≤ k) (hk : k ≤ 30) (hB1 : 1 ≤ B) (hB8 : B ≤ 8)
    (ha1 : buf1.address < 2 ^ 64) (ha2 : buf2.address < 2 ^ 64)
    (h1 : buf1.address % 8 = 0) (h2 : buf2.address % 8 = 0)
    (hne : buf1.address ≠ buf2.address)
    (hpage : bitfieldBase buf1.address (2 ^ k) = bitfieldBase buf2.address (2 ^ k)) :
    ((GetMarkingWord buf1.address (2 ^ k) B).1 ≠ (GetMarkingWord buf2.address (2 ^ k) B).1
      ∨ (GetMarkingWord buf1.address (2 ^ k) B).2 + B ≤ (GetMarkingWord buf2.address (2 ^ k) B).2
      ∨ (GetMarkingWord buf2.address (2 ^ k) B).2 + B
          ≤ (GetMarkingWord buf1.address (2 ^ k) B).2) ∧
    (toUInt32 m < 2 ^ B →
      ∃ mem', WriteMark mem buf1 m (2 ^ k) B = Except.ok mem' ∧
        ReadMark mem' buf2 (2 ^ k) B = ReadMark mem buf2 (2 ^ k) B) := by
  have ha1' : buf1.address < 18446744073709551616 := by simpa using ha1
  have ha2' : buf2.address < 18446744073709551616 := by simpa using ha2
  have hd1 : buf1.data = buf1.address := Nat.mod_eq_of_lt ha1'
  have hd2 : buf2.data = buf2.address := Nat.mod_eq_of_lt ha2'
  have hpos := getMarkingWord_positions_disjoint buf1.address buf2.address k B hk hB1 hB8
    ha1 ha2 h1 h2 hne hpage
  refine ⟨hpos, fun hfit => ?_⟩
  have hs := getMarkingWord_shift_le buf1.address (2 ^ k) B
  have hal1 := getMarkingWord_word_aligned buf1.address k B hk3 hk
  have hal2 := getMarkingWord_word_aligned buf2.address k B hk3 hk
  have hw : load64 mem (GetMarkingWord buf1.address (2 ^ k) B).1 < 2 ^ 64 := by
    have := load64_lt mem (GetMarkingWord buf1.address (2 ^ k) B).1
    norm_num
    exact this
  have h64 : (18446744073709551616 : Nat) = 2 ^ 64 := by norm_num
  refine ⟨_, writeMark_eq mem buf1 k B m hk hB8, ?_⟩
  rw [readMark_eq _ buf2 k B hk hB8, readMark_eq _ buf2 k B hk hB8, hd1, hd2]
  by_cases hword : (GetMarkingWord buf2.address (2 ^ k) B).1
      = (GetMarkingWord buf1.address (2 ^ k) B).1
  · have hbits : (GetMarkingWord buf2.address (2 ^ k) B).2 + B
          ≤ (GetMarkingWord buf1.address (2 ^ k) B).2
        ∨ (GetMarkingWord buf1.address (2 ^ k) B).2 + B
          ≤ (GetMarkingWord buf2.address (2 ^ k) B).2 := by
      rcases hpos with h | h | h
      · exact absurd hword.symm h
      · exact Or.inr h
      · exact Or.inl h
    rw [hword, load64_store64_same, h64, Nat.mod_eq_of_lt (markWord_lt _ _ _ _ hw),
      markWord_read_other _ _ B _ B _ hB8 hs hw hfit hbits]
  · rw [load64_store64_disjoint _ _ _ _
      (words_share_no_byte _ _ hal1.1 hal2.1 hal1.2 hal2.2 (fun h => hword h.symm))]

theorem distinct_objects_disjoint_marks_witness :
    ((GetMarkingWord 4288 (2 ^ 12) (3 : Nat)).1 ≠ (GetMarkingWord 4296 (2 ^ 12) (3 : Nat)).1
      ∨ (GetMarkingWord 4288 (2 ^ 12) (3 : Nat)).2 + 3 ≤ (GetMarkingWord 4296 (2 ^ 12) (3 : Nat)).2
      ∨ (GetMarkingWord 4296 (2 ^ 12) (3 : Nat)).2 + 3
          ≤ (GetMarkingWord 4288 (2 ^ 12) (3 : Nat)).2) ∧
    ∃ mem', WriteMark (fun _ => 0) ⟨4288, 8⟩ 5 (2 ^ 12) (3 : Nat) = Except.ok mem' ∧
      ReadMark mem' ⟨4296, 8⟩ (2 ^ 12) (3 : Nat)
        = ReadMark (fun _ => 0) ⟨4296, 8⟩ (2 ^ 12) (3 : Nat) :=
  have h := distinct_objects_disjoint_marks (fun _ => 0) ⟨4288, 8⟩ ⟨4296, 8⟩ 12 3 5
    (by decide) (by decide) (by decide) (by decide) (by decide) (by decide) (by decide)
    (by decide) (by decide) rfl
  ⟨h.1, h.2 (by decide)⟩

end Heap
